import Mathlib

/-!
# Verification of `update_yasb_palette.py`

Shallow embedding of the YASB theme updater. The script derives an accent
color from a generated palette and rewrites two configuration files.

Modelling conventions:
* Python `float` arithmetic is embedded as exact rational arithmetic (`ℚ`);
  the decimal literals of the source (0.2126, 0.45, ...) are exact rationals.
* Python dicts `colors` / `special` are embedded as lookup functions
  `String → Option String` (`dict.get` semantics).
* Python exceptions are embedded as `Except Err`; `Err` distinguishes the
  script's own `PaletteError` from built-in `ValueError` (raised by
  `int(_, 16)` on non-hex input).
* Text is embedded as `List Char`.  The three stylesheet regexes and the
  config regex are deterministic (no essential backtracking), so each is
  embedded as a maximal-munch matcher; equivalences are noted at each one.
* Python's `\s` is embedded as ASCII whitespace.
-/

set_option autoImplicit false

/- Batteries marks the rational field operations `@[irreducible]`, which
blocks kernel evaluation of concrete palette computations; restore the
default reducibility for this development so that `decide`/`rfl` can
evaluate them. -/
attribute [local semireducible] Rat.mul Rat.add Rat.sub Rat.inv Rat.ofScientific

namespace Yasb

/-- Python exceptions that the script can raise: its own `PaletteError`
(`class PaletteError(RuntimeError)`) and the interpreter's `ValueError`
(from `int(cleaned[i:i+2], 16)` on malformed input). -/
inductive Err where
  | paletteError (msg : String)
  | valueError (msg : String)
  deriving Repr, DecidableEq

deriving instance DecidableEq for Except

/-- `ACCENT_PRIORITY` tuple from the source. -/
def ACCENT_PRIORITY : List String :=
  ["color4", "color5", "color2", "color6", "color3", "color1", "color7"]

/-- `LUMINANCE_TARGET = 0.45`. -/
def LUMINANCE_TARGET : ℚ := 0.45

/-- `LUMINANCE_TOLERANCE = 0.25`. -/
def LUMINANCE_TOLERANCE : ℚ := 0.25

/-- `MIN_CONTRAST = 0.25`. -/
def MIN_CONTRAST : ℚ := 0.25

/-- Value of one hex digit, as accepted by Python `int(_, 16)` for plain
hex-digit characters (the source never feeds it signs or whitespace under
the palette invariant; those lenient cases are outside this model). -/
def hexVal (c : Char) : Option ℕ :=
  if ('0' ≤ c ∧ c ≤ '9') then some (c.toNat - 48)
  else if ('a' ≤ c ∧ c ≤ 'f') then some (c.toNat - 87)
  else if ('A' ≤ c ∧ c ≤ 'F') then some (c.toNat - 55)
  else none

/-- `int(cleaned[i:i+2], 16)`: a two-hex-digit slice. -/
def hexPair (c1 c2 : Char) : Except Err ℕ :=
  match hexVal c1, hexVal c2 with
  | some h, some l => .ok (16 * h + l)
  | _, _ => .error (.valueError "invalid literal for int() with base 16")

/-- `hex_to_rgb`: strip leading `#`s, require length 6, parse three pairs.
The length check raises `PaletteError` (source line 232); pair parsing
raises `ValueError`. -/
def hex_to_rgb (hex_color : String) : Except Err (ℕ × ℕ × ℕ) :=
  match hex_color.toList.dropWhile (fun c => c = '#') with
  | [c1, c2, c3, c4, c5, c6] => do
      let r ← hexPair c1 c2
      let g ← hexPair c3 c4
      let b ← hexPair c5 c6
      .ok (r, g, b)
  | _ => .error (.paletteError "Unexpected color format")

/-- `relative_luminance`: weighted sum of the normalized channels. -/
def relative_luminance (rgb : ℕ × ℕ × ℕ) : ℚ :=
  0.2126 * ((rgb.1 : ℚ) / 255) + 0.7152 * ((rgb.2.1 : ℚ) / 255)
    + 0.0722 * ((rgb.2.2 : ℚ) / 255)

/-- Python truthiness of an optional string: `None` and `""` are falsy.
Used for `colors.get(key)` / `os.environ.get(...)` guards. -/
def truthy : Option String → Option String
  | some s => if s = "" then none else some s
  | none => none

/-- The `candidate_colors()` generator inside `choose_accent`: the seven
priority slots (truthy values only) followed by `special["foreground"]`
when truthy. -/
def candidate_colors (colors special : String → Option String) : List String :=
  (ACCENT_PRIORITY.filterMap (fun key => truthy (colors key)))
    ++ (truthy (special "foreground")).toList

/-- Python `abs` on rationals (spelled out so that the kernel can
evaluate it; Mathlib's `|·|` goes through a lattice instance that does
not reduce). -/
def absQ (x : ℚ) : ℚ := if x < 0 then -x else x

/-- One iteration of the `ranked` loop: parse the candidate, compute
luminance and contrast. -/
def rankOf (background_lum : ℚ) (hex_color : String) :
    Except Err (String × ℚ × ℚ) := do
  let rgb ← hex_to_rgb hex_color
  let lum := relative_luminance rgb
  .ok (hex_color, lum, absQ (lum - background_lum))

/-- The `ranked` loop over all candidates: the Python `for` loop raises
out of the whole build at the first bad candidate. -/
def buildRanked (background_lum : ℚ) :
    List String → Except Err (List (String × ℚ × ℚ))
  | [] => .ok []
  | h :: t => do
    let r ← rankOf background_lum h
    let rs ← buildRanked background_lum t
    .ok (r :: rs)

/-- `target_low = max(0.0, LUMINANCE_TARGET - LUMINANCE_TOLERANCE)`. -/
def target_low : ℚ := max 0 (LUMINANCE_TARGET - LUMINANCE_TOLERANCE)

/-- `target_high = min(1.0, LUMINANCE_TARGET + LUMINANCE_TOLERANCE)`. -/
def target_high : ℚ := min 1 (LUMINANCE_TARGET + LUMINANCE_TOLERANCE)

/-- The primary acceptance test of the scan loop:
`target_low <= lum <= target_high and contrast >= MIN_CONTRAST`. -/
def acceptB (t : String × ℚ × ℚ) : Bool :=
  decide (target_low ≤ t.2.1) && decide (t.2.1 ≤ target_high)
    && decide (MIN_CONTRAST ≤ t.2.2)

/-- Python `min(l, key=key)` with the stable first-minimum policy, as a
fold with accumulator `x`: a later element replaces the best only when its
key is strictly smaller. -/
def minByKey {α : Type} (key : α → ℚ) (x : α) (l : List α) : α :=
  l.foldl (fun best item => if key item < key best then item else best) x

/-- The body of `choose_accent` after the override check: build `ranked`,
fail when empty, scan for the first in-band high-contrast candidate, else
fall back to the luminance closest to target. -/
def choose_accent_scan (colors special : String → Option String)
    (background_rgb : ℕ × ℕ × ℕ) : Except Err String := do
  let background_lum := relative_luminance background_rgb
  let ranked ← buildRanked background_lum (candidate_colors colors special)
  match ranked with
  | [] => .error (.paletteError "Palette did not contain any usable accent colors.")
  | first :: rest =>
    match (first :: rest).find? acceptB with
    | some t => .ok t.1
    | none => .ok (minByKey (fun t => absQ (t.2.1 - LUMINANCE_TARGET)) first rest).1

/-- `choose_accent`: `env_slot = os.environ.get("YASB_ACCENT_SLOT")`; a
truthy env value naming a truthy slot short-circuits, otherwise the scan
runs. -/
def choose_accent (env_slot : Option String)
    (colors special : String → Option String)
    (background_rgb : ℕ × ℕ × ℕ) : Except Err String :=
  match truthy env_slot with
  | some slot =>
    match truthy (colors slot) with
    | some candidate => .ok candidate
    | none => choose_accent_scan colors special background_rgb
  | none => choose_accent_scan colors special background_rgb

/-- Luminance of a hex string when it parses (statement-side helper). -/
def lumQ (hex_color : String) : ℚ :=
  match hex_to_rgb hex_color with
  | .ok rgb => relative_luminance rgb
  | .error _ => 0

/-- Primary acceptance, phrased on a raw candidate hex string. -/
def acceptHex (background_lum : ℚ) (hex_color : String) : Bool :=
  acceptB (hex_color, lumQ hex_color, absQ (lumQ hex_color - background_lum))

/-- Fallback key of a raw candidate hex string: distance of its luminance
from the target. -/
def keyH (hex_color : String) : ℚ := absQ (lumQ hex_color - LUMINANCE_TARGET)

/-- `"#"` followed by exactly six hex digits: the canonical hex-color shape
the palette invariant guarantees (`hex_to_rgb` succeeds on exactly these
among `#`-prefixed strings). -/
def isHexDigitB (c : Char) : Bool :=
  decide ('0' ≤ c ∧ c ≤ '9') || decide ('a' ≤ c ∧ c ≤ 'f')
    || decide ('A' ≤ c ∧ c ≤ 'F')

/-- Lowercase-only hex digit. -/
def isLowerHexB (c : Char) : Bool :=
  decide ('0' ≤ c ∧ c ≤ '9') || decide ('a' ≤ c ∧ c ≤ 'f')

/-- A valid color string `#RRGGBB`. -/
def isValidHexColor (s : String) : Bool :=
  match s.toList with
  | c :: rest =>
    decide (c = '#') && decide (rest.length = 6) && rest.all isHexDigitB
  | [] => false

/-- A valid lowercase color string `#rrggbb`. -/
def isLowerHexColor (s : String) : Bool :=
  match s.toList with
  | c :: rest =>
    decide (c = '#') && decide (rest.length = 6) && rest.all isLowerHexB
  | [] => false

/-- Modelled from the spec: the inverse of `hex_to_rgb` ("for any valid
6-hex-digit color string, `hexToRGB` and its inverse round-trip exactly";
"all hex values are exactly 6 hex digits").  The repository has no explicit
formatter function; pywal and the script's own output use lowercase hex, so
the canonical lowercase `#%02x%02x%02x` rendering is modelled. -/
def hexDigitChar (n : ℕ) : Char :=
  if n < 10 then Char.ofNat (48 + n) else Char.ofNat (87 + n)

/-- Modelled from the spec: format an RGB triple back to `#rrggbb`. -/
def rgb_to_hex (rgb : ℕ × ℕ × ℕ) : String :=
  ⟨'#' :: [hexDigitChar (rgb.1 / 16), hexDigitChar (rgb.1 % 16),
           hexDigitChar (rgb.2.1 / 16), hexDigitChar (rgb.2.1 % 16),
           hexDigitChar (rgb.2.2 / 16), hexDigitChar (rgb.2.2 % 16)]⟩

/-! ## Regex substitution machinery

The three stylesheet patterns and the config pattern are all of the shape
"literal, optional whitespace, constrained run, terminator" and admit no
essential backtracking, so each is embedded as a deterministic matcher
`List Char → Option (List Char)` returning the text remaining after a
match at the current position:

* `--accent:\s*#[0-9a-fA-F]{6};` — after `\s*` comes `#` (not whitespace),
  so greedy whitespace skipping is exact.
* `--accent-rgb:\s*[0-9\s,]+;` — `\s` is contained in the bracket class,
  so `\s*[0-9\s,]+` matches exactly the nonempty runs over the class, and
  the terminator `;` is outside the class: maximal munch is exact.
* `--yasb-background:\s*rgba\([^;]+;` — `[^;]+` runs to the first `;`.
* `'color': '#[0-9a-fA-F]{6}'` — fixed length.
-/

/-- Python `\s` restricted to ASCII. -/
def isWS (c : Char) : Bool :=
  decide (c = ' ') || decide (c = '\t') || decide (c = '\n')
    || decide (c = '\r') || decide (c = '\x0b') || decide (c = '\x0c')

/-- The bracket class `[0-9\s,]`. -/
def isClsB (c : Char) : Bool :=
  decide ('0' ≤ c ∧ c ≤ '9') || isWS c || decide (c = ',')

/-- Match a literal. -/
def mLit : List Char → List Char → Option (List Char)
  | [], s => some s
  | _ :: _, [] => none
  | c :: L, x :: s => if x = c then mLit L s else none

/-- Match a nonempty maximal run of characters satisfying `p`. -/
def mRun1 (p : Char → Bool) : List Char → Option (List Char)
  | [] => none
  | c :: rest => if p c then some (rest.dropWhile p) else none

/-- Match exactly six hex digits. -/
def mHex6 : List Char → Option (List Char)
  | c1 :: c2 :: c3 :: c4 :: c5 :: c6 :: rest =>
    if isHexDigitB c1 && isHexDigitB c2 && isHexDigitB c3 && isHexDigitB c4
        && isHexDigitB c5 && isHexDigitB c6 then some rest else none
  | _ => none

/-- The literal `--accent:` as an explicit character list. -/
def litAccent : List Char := ['-', '-', 'a', 'c', 'c', 'e', 'n', 't', ':']

/-- The literal `--accent-rgb:`. -/
def litAccentRgb : List Char :=
  ['-', '-', 'a', 'c', 'c', 'e', 'n', 't', '-', 'r', 'g', 'b', ':']

/-- The literal `--yasb-background:`. -/
def litYasbBg : List Char :=
  ['-', '-', 'y', 'a', 's', 'b', '-', 'b', 'a', 'c', 'k', 'g', 'r', 'o',
   'u', 'n', 'd', ':']

/-- The literal `rgba(`. -/
def litRgba : List Char := ['r', 'g', 'b', 'a', '(']

/-- Matcher for `--accent:\s*#[0-9a-fA-F]{6};`. -/
def m1 (s : List Char) : Option (List Char) := do
  let s1 ← mLit litAccent s
  let s2 ← mLit ['#'] (s1.dropWhile isWS)
  let s3 ← mHex6 s2
  mLit [';'] s3

/-- Matcher for `--accent-rgb:\s*[0-9\s,]+;`. -/
def m2 (s : List Char) : Option (List Char) := do
  let s1 ← mLit litAccentRgb s
  let s2 ← mRun1 isClsB s1
  mLit [';'] s2

/-- Matcher for `--yasb-background:\s*rgba\([^;]+;`. -/
def m3 (s : List Char) : Option (List Char) := do
  let s1 ← mLit litYasbBg s
  let s2 ← mLit litRgba (s1.dropWhile isWS)
  let s3 ← mRun1 (fun c => !decide (c = ';')) s2
  mLit [';'] s3

/-- The apostrophe character (spelled via its code point). -/
def sq : Char := Char.ofNat 39

/-- Quote, `color`, quote, colon, space, quote: the part of the config
pattern shared by its replacement text. -/
def litColorPre : List Char :=
  [sq, 'c', 'o', 'l', 'o', 'r', sq, ':', ' ', sq]

/-- The literal head of the config pattern: `litColorPre` plus `#`. -/
def litColorHead : List Char :=
  [sq, 'c', 'o', 'l', 'o', 'r', sq, ':', ' ', sq, '#']

/-- Matcher for `'color': '#[0-9a-fA-F]{6}'`. -/
def configM (s : List Char) : Option (List Char) := do
  let s1 ← mLit litColorHead s
  let s2 ← mHex6 s1
  mLit [sq] s2

/-- `re.subn(pattern, repl, text, count=1)`: replace the leftmost match,
keep everything else; `none` when there is no match. -/
def subFirst (m : List Char → Option (List Char)) (repl : List Char) :
    List Char → Option (List Char)
  | [] => (m []).map (fun rest => repl ++ rest)
  | c :: s =>
    match m (c :: s) with
    | some rest => some (repl ++ rest)
    | none => (subFirst m repl s).map (fun t => c :: t)

/-- `re.subn(pattern, repl, text)`: replace every non-overlapping match,
scanning left to right and resuming after each match; also returns the
count.  Structured with explicit fuel so that the kernel can evaluate it;
the fuel (initially the text length) and the `rest.length ≤ s.length`
guard are termination devices only: every matcher used here consumes at
least one character, so with initial fuel neither cutoff is ever hit. -/
def subAllAux (m : List Char → Option (List Char)) (repl : List Char) :
    ℕ → List Char → List Char × ℕ
  | _, [] => ([], 0)
  | 0, s => (s, 0)
  | fuel + 1, c :: s =>
    match m (c :: s) with
    | some rest =>
      if rest.length ≤ fuel then
        let p := subAllAux m repl fuel rest
        (repl ++ p.1, p.2 + 1)
      else ([], 0)
    | none =>
      let p := subAllAux m repl fuel s
      (c :: p.1, p.2)

/-- `re.subn(pattern, repl, text)` (see `subAllAux`). -/
def subAll (m : List Char → Option (List Char)) (repl : List Char)
    (s : List Char) : List Char × ℕ :=
  subAllAux m repl s.length s

/-- The decimal digit character for `n < 10`. -/
def digitChar (n : ℕ) : Char := Char.ofNat (48 + n)

/-- Decimal rendering of a nonnegative integer (Python `f"{n}"`), with
fuel for structural recursion (`n + 1` always suffices). -/
def natStrAux : ℕ → ℕ → List Char
  | 0, _ => []
  | fuel + 1, n =>
    if n < 10 then [digitChar n]
    else natStrAux fuel (n / 10) ++ [digitChar (n % 10)]

/-- Decimal rendering of a nonnegative integer (Python `f"{n}"`). -/
def natStr (n : ℕ) : List Char := natStrAux (n + 1) n

/-- Replacement `f"--accent: {accent_hex};"`. -/
def repl1 (accent_hex : String) : List Char :=
  litAccent ++ [' '] ++ accent_hex.toList ++ [';']

/-- Replacement `f"--accent-rgb: {r}, {g}, {b};"`. -/
def repl2 (rgb : ℕ × ℕ × ℕ) : List Char :=
  litAccentRgb ++ [' '] ++ natStr rgb.1 ++ [',', ' '] ++ natStr rgb.2.1
    ++ [',', ' '] ++ natStr rgb.2.2 ++ [';']

/-- Replacement `f"--yasb-background: rgba({r}, {g}, {b}, 0.72);"`. -/
def repl3 (rgb : ℕ × ℕ × ℕ) : List Char :=
  litYasbBg ++ [' '] ++ litRgba ++ natStr rgb.1 ++ [',', ' ']
    ++ natStr rgb.2.1 ++ [',', ' '] ++ natStr rgb.2.2
    ++ [',', ' ', '0', '.', '7', '2', ')', ';']

/-- Replacement `f"'color': '{accent_hex}'"`. -/
def replConfig (accent_hex : String) : List Char :=
  litColorPre ++ accent_hex.toList ++ [sq]

/-- `update_css` on the in-memory stylesheet text: the three sequential
`re.subn(..., count=1)` steps, each fatal when its count is zero.  The
file write happens only after all three succeed. -/
def update_css_pure (accent_hex : String) (background_rgb : ℕ × ℕ × ℕ)
    (css : List Char) : Except Err (List Char) := do
  let accent_rgb ← hex_to_rgb accent_hex
  let css1 ← match subFirst m1 (repl1 accent_hex) css with
    | some t => Except.ok t
    | none => Except.error (.paletteError "Failed to apply CSS replacement for pattern: accent")
  let css2 ← match subFirst m2 (repl2 accent_rgb) css1 with
    | some t => Except.ok t
    | none => Except.error (.paletteError "Failed to apply CSS replacement for pattern: accent-rgb")
  let css3 ← match subFirst m3 (repl3 background_rgb) css2 with
    | some t => Except.ok t
    | none => Except.error (.paletteError "Failed to apply CSS replacement for pattern: yasb-background")
  .ok css3

/-- `update_config` on the in-memory config text: replace every match,
fail when the count is zero, otherwise return the new text and the count. -/
def update_config_pure (accent_hex : String) (cfg : List Char) :
    Except Err (List Char × ℕ) :=
  let p := subAll configM (replConfig accent_hex) cfg
  if p.2 = 0 then
    .error (.paletteError "No color entries updated in config.yaml; expected at least one.")
  else .ok p

/-! ## The file-writing pipeline (`main`, lines 339-340) -/

/-- The two target files. -/
structure FS where
  css : List Char
  config : List Char
  deriving Repr, DecidableEq

/-- `update_css`: on success the stylesheet file is rewritten; on failure
the exception propagates and no file changes. -/
def update_css_fs (accent_hex : String) (background_rgb : ℕ × ℕ × ℕ)
    (fs : FS) : Except Err Unit × FS :=
  match update_css_pure accent_hex background_rgb fs.css with
  | .ok t => (.ok (), { fs with css := t })
  | .error e => (.error e, fs)

/-- `update_config`: on success the config file is rewritten. -/
def update_config_fs (accent_hex : String) (fs : FS) : Except Err Unit × FS :=
  match update_config_pure accent_hex fs.config with
  | .ok p => (.ok (), { fs with config := p.1 })
  | .error e => (.error e, fs)

/-- Lines 339-340 of `main`: `update_css(...)` then `update_config(...)`;
a `PaletteError` from the first aborts before the second runs. -/
def apply_updates (accent_hex : String) (background_rgb : ℕ × ℕ × ℕ)
    (fs : FS) : Except Err Unit × FS :=
  match update_css_fs accent_hex background_rgb fs with
  | (.ok _, fs1) => update_config_fs accent_hex fs1
  | (.error e, fs1) => (.error e, fs1)

/-! ## Structured stylesheet texts

For the corrected idempotence claim we describe stylesheets as block
lists: inert fragments free of `-` interleaved with full pattern matches.
Every matcher's literal head starts with `-`, so no match can start
inside an inert fragment, and the heads pairwise disagree early enough
that no match can start inside a site of another kind. -/

inductive Block where
  | plain (s : List Char)
  | site1 (ws hex : List Char)
  | site2 (body : List Char)
  | site3 (ws body : List Char)

/-- The text of a block. -/
def Block.text : Block → List Char
  | .plain s => s
  | .site1 ws hex => litAccent ++ ws ++ '#' :: (hex ++ [';'])
  | .site2 body => litAccentRgb ++ body ++ [';']
  | .site3 ws body => litYasbBg ++ ws ++ litRgba ++ body ++ [';']

/-- Wellformedness: plain fragments avoid `-`; sites have the component
shapes of their patterns; a `site3` body also avoids `-` (so it cannot
swallow another pattern's head — exactly the overlap that breaks
idempotence). -/
def Block.okB : Block → Bool
  | .plain s => s.all (fun c => !decide (c = '-'))
  | .site1 ws hex =>
      ws.all isWS && decide (hex.length = 6) && hex.all isHexDigitB
  | .site2 body => !decide (body = []) && body.all isClsB
  | .site3 ws body =>
      ws.all isWS && !decide (body = [])
        && body.all (fun c => !decide (c = ';') && !decide (c = '-'))

def Block.isS1 : Block → Bool
  | .site1 _ _ => true
  | _ => false

def Block.isS2 : Block → Bool
  | .site2 _ => true
  | _ => false

def Block.isS3 : Block → Bool
  | .site3 _ _ => true
  | _ => false

/-- Concatenate the blocks into a stylesheet. -/
def flattenB (L : List Block) : List Char := (L.map Block.text).flatten

/-! ## Structured config texts -/

inductive CBlock where
  | plain (s : List Char)
  | site (hex : List Char)

/-- The text of a config block. -/
def CBlock.text : CBlock → List Char
  | .plain s => s
  | .site hex => litColorHead ++ hex ++ [sq]

/-- Wellformedness: plain fragments avoid the quote character; sites hold
six hex digits. -/
def CBlock.okB : CBlock → Bool
  | .plain s => s.all (fun c => !decide (c = sq))
  | .site hex => decide (hex.length = 6) && hex.all isHexDigitB

def CBlock.isSite : CBlock → Bool
  | .site _ => true
  | _ => false

/-- Replace every site's content with the accent replacement text. -/
def creplace (accent_hex : String) : List CBlock → List CBlock
  | [] => []
  | .plain s :: L => .plain s :: creplace accent_hex L
  | .site _ :: L => .plain (replConfig accent_hex) :: creplace accent_hex L

/-- Concatenate the blocks into a config text. -/
def flattenC (L : List CBlock) : List Char := (L.map CBlock.text).flatten

/-- The `ranked` list expressed over the candidate strings directly
(statement-side counterpart of the `rankOf` loop). -/
def rankedOf (background_lum : ℚ) (cands : List String) :
    List (String × ℚ × ℚ) :=
  cands.map (fun h => (h, lumQ h, absQ (lumQ h - background_lum)))

/-- No match of `m` starts at any position strictly inside `t`, whatever
text follows `t`. -/
def NoMatchPre (m : List Char → Option (List Char)) (t : List Char) : Prop :=
  ∀ j s, j < t.length → m (t.drop j ++ s) = none

/-! # Theorems -/

section Helpers

variable {α β : Type}

theorem find?_congr {p q : α → Bool} :
    ∀ {l : List α}, (∀ x ∈ l, p x = q x) → l.find? p = l.find? q := by
  intro l
  induction l with
  | nil => intro _; rfl
  | cons a l ih =>
    intro h
    simp only [List.find?_cons]
    rw [h a (by simp)]
    cases hq : q a with
    | true => rfl
    | false => exact ih (fun x hx => h x (by simp [hx]))

theorem find?_map_eq (f : α → β) (p : β → Bool) :
    ∀ l : List α, (l.map f).find? p = ((l.find? (fun x => p (f x))).map f) := by
  intro l
  induction l with
  | nil => rfl
  | cons a l ih =>
    simp only [List.map_cons, List.find?_cons]
    cases h : p (f a) with
    | true => rfl
    | false => exact ih

theorem find?_append_of_false {p : α → Bool} :
    ∀ {l₁ : List α} (l₂ : List α), (∀ x ∈ l₁, p x = false) →
      (l₁ ++ l₂).find? p = l₂.find? p := by
  intro l₁
  induction l₁ with
  | nil => intro l₂ _; rfl
  | cons a l ih =>
    intro l₂ h
    simp only [List.cons_append, List.find?_cons, h a (by simp)]
    exact ih l₂ (fun x hx => h x (by simp [hx]))

end Helpers

theorem rankOf_ok (background_lum : ℚ) (h : String) (rgb : ℕ × ℕ × ℕ)
    (hrgb : hex_to_rgb h = .ok rgb) :
    rankOf background_lum h
      = .ok (h, lumQ h, absQ (lumQ h - background_lum)) := by
  unfold rankOf lumQ
  rw [hrgb]
  rfl

theorem buildRanked_ok (background_lum : ℚ) :
    ∀ l : List String, (∀ h ∈ l, (hex_to_rgb h).isOk = true) →
      buildRanked background_lum l = .ok (rankedOf background_lum l) := by
  intro l
  induction l with
  | nil => intro _; rfl
  | cons a l ih =>
    intro hok
    have ha := hok a (by simp)
    obtain ⟨rgb, hrgb⟩ : ∃ rgb, hex_to_rgb a = .ok rgb := by
      cases h : hex_to_rgb a with
      | ok rgb => exact ⟨rgb, rfl⟩
      | error e => rw [h] at ha; simp [Except.isOk, Except.toBool] at ha
    have ht := ih (fun h hh => hok h (by simp [hh]))
    unfold buildRanked
    rw [rankOf_ok background_lum a rgb hrgb, ht]
    rfl

theorem choose_accent_no_env (env_slot : Option String)
    (colors special : String → Option String) (bg : ℕ × ℕ × ℕ)
    (henv : truthy env_slot = none) :
    choose_accent env_slot colors special bg = choose_accent_scan colors special bg := by
  unfold choose_accent
  rw [henv]

theorem minByKey_cons {α : Type} (key : α → ℚ) (x y : α) (ys : List α) :
    minByKey key x (y :: ys)
      = minByKey key (if key y < key x then y else x) ys := rfl

theorem minByKey_spec {α : Type} (key : α → ℚ) :
    ∀ (l : List α) (x : α),
      (minByKey key x l = x ∧ ∀ y ∈ l, key x ≤ key y) ∨
      (∃ l₁ l₂, l = l₁ ++ minByKey key x l :: l₂ ∧
        key (minByKey key x l) < key x ∧
        (∀ z ∈ l₁, key (minByKey key x l) < key z) ∧
        (∀ z ∈ l₂, key (minByKey key x l) ≤ key z)) := by
  intro l
  induction l with
  | nil => intro x; left; exact ⟨rfl, by simp⟩
  | cons y ys ih =>
    intro x
    rw [minByKey_cons]
    by_cases hy : key y < key x
    · rw [if_pos hy]
      rcases ih y with ⟨hm, hall⟩ | ⟨l₁, l₂, heq, hlt, h1, h2⟩
      · right
        refine ⟨[], ys, by rw [List.nil_append, hm], by rw [hm]; exact hy,
          by simp, ?_⟩
        intro z hz; rw [hm]; exact hall z hz
      · right
        refine ⟨y :: l₁, l₂, by rw [List.cons_append, ← heq],
          lt_trans hlt hy, ?_, h2⟩
        intro z hz
        rcases List.mem_cons.mp hz with rfl | hz'
        · exact hlt
        · exact h1 z hz'
    · rw [if_neg hy]
      have hxy : key x ≤ key y := le_of_not_lt hy
      rcases ih x with ⟨hm, hall⟩ | ⟨l₁, l₂, heq, hlt, h1, h2⟩
      · left
        refine ⟨hm, ?_⟩
        intro z hz
        rcases List.mem_cons.mp hz with rfl | hz'
        · exact hxy
        · exact hall z hz'
      · right
        refine ⟨y :: l₁, l₂, by rw [List.cons_append, ← heq], hlt, ?_, h2⟩
        intro z hz
        rcases List.mem_cons.mp hz with rfl | hz'
        · exact lt_of_lt_of_le hlt hxy
        · exact h1 z hz'

theorem minByKey_mem {α : Type} (key : α → ℚ) (x : α) (l : List α) :
    minByKey key x l = x ∨ minByKey key x l ∈ l := by
  rcases minByKey_spec key l x with ⟨hm, _⟩ | ⟨l₁, l₂, heq, _, _, _⟩
  · exact Or.inl hm
  · refine Or.inr ?_
    have hmem : minByKey key x l ∈ l₁ ++ minByKey key x l :: l₂ := by simp
    rwa [← heq] at hmem

theorem minByKey_find {α : Type} (key : α → ℚ) (x : α) (l : List α) :
    (x :: l).find? (fun t => (x :: l).all (fun y => decide (key t ≤ key y)))
      = some (minByKey key x l) := by
  rcases minByKey_spec key l x with ⟨hm, hall⟩ | ⟨l₁, l₂, heq, hlt, h1, h2⟩
  · rw [List.find?_cons_of_pos, hm]
    simp only [List.all_eq_true, decide_eq_true_eq]
    intro y hy
    rcases List.mem_cons.mp hy with rfl | hy'
    · exact le_refl _
    · exact hall y hy'
  · have hmem : minByKey key x l ∈ l := by
      have h0 : minByKey key x l ∈ l₁ ++ minByKey key x l :: l₂ := by simp
      rwa [← heq] at h0
    have hallm :
        ((x :: l).all fun y => decide (key (minByKey key x l) ≤ key y)) = true := by
      simp only [List.all_eq_true, decide_eq_true_eq]
      intro y hy
      rcases List.mem_cons.mp hy with rfl | hy'
      · exact le_of_lt hlt
      · have hsplit : y ∈ l₁ ++ minByKey key x l :: l₂ := by rw [← heq]; exact hy'
        rcases List.mem_append.mp hsplit with hy1 | hy2
        · exact le_of_lt (h1 y hy1)
        · rcases List.mem_cons.mp hy2 with heq2 | hy3
          · rw [heq2]
          · exact h2 y hy3
    have hPx : ¬ ((x :: l).all fun y => decide (key x ≤ key y)) = true := by
      intro hc
      rw [List.all_eq_true] at hc
      have := hc (minByKey key x l) (List.mem_cons_of_mem _ hmem)
      rw [decide_eq_true_eq] at this
      exact absurd this (not_le_of_lt hlt)
    have hfalse : ∀ z ∈ l₁,
        ((x :: l).all fun y => decide (key z ≤ key y)) = false := by
      intro z hz
      refine Bool.eq_false_iff.mpr ?_
      intro hc
      rw [List.all_eq_true] at hc
      have := hc (minByKey key x l) (List.mem_cons_of_mem _ hmem)
      rw [decide_eq_true_eq] at this
      exact absurd this (not_le_of_lt (h1 z hz))
    calc List.find? (fun t => (x :: l).all fun y => decide (key t ≤ key y))
            (x :: l)
        = List.find? (fun t => (x :: l).all fun y => decide (key t ≤ key y)) l :=
          List.find?_cons_of_neg _ hPx
      _ = List.find? (fun t => (x :: l).all fun y => decide (key t ≤ key y))
            (l₁ ++ minByKey key x l :: l₂) := by rw [← heq]
      _ = List.find? (fun t => (x :: l).all fun y => decide (key t ≤ key y))
            (minByKey key x l :: l₂) := find?_append_of_false _ hfalse
      _ = some (minByKey key x l) := List.find?_cons_of_pos _ hallm

theorem minByKey_map {α β : Type} (f : α → β) (kk : β → ℚ) (x : α)
    (l : List α) :
    minByKey kk (f x) (l.map f) = f (minByKey (fun a => kk (f a)) x l) := by
  induction l generalizing x with
  | nil => rfl
  | cons y ys ih =>
    simp only [List.map_cons, minByKey_cons]
    rw [← apply_ite f]
    exact ih (if kk (f y) < kk (f x) then y else x)

theorem filterMap_congr_mem {α β : Type} {f g : α → Option β} :
    ∀ {l : List α}, (∀ a ∈ l, f a = g a) → l.filterMap f = l.filterMap g := by
  intro l
  induction l with
  | nil => intro _; rfl
  | cons a l ih =>
    intro h
    simp only [List.filterMap_cons, h a (by simp)]
    rw [ih (fun x hx => h x (by simp [hx]))]

/-- The triple built for one candidate (abbreviation used in proofs). -/
theorem rankedOf_cons (background_lum : ℚ) (x : String) (l : List String) :
    rankedOf background_lum (x :: l)
      = (x, lumQ x, absQ (lumQ x - background_lum))
          :: rankedOf background_lum l := rfl

theorem scan_empty (colors special : String → Option String)
    (bg : ℕ × ℕ × ℕ) (hcands : candidate_colors colors special = []) :
    choose_accent_scan colors special bg
      = .error (.paletteError "Palette did not contain any usable accent colors.") := by
  unfold choose_accent_scan
  rw [hcands]
  rfl

theorem scan_find (colors special : String → Option String) (bg : ℕ × ℕ × ℕ)
    (x c : String) (l : List String)
    (hok : ∀ h ∈ x :: l, (hex_to_rgb h).isOk = true)
    (hcands : candidate_colors colors special = x :: l)
    (hfind : (x :: l).find? (acceptHex (relative_luminance bg)) = some c) :
    choose_accent_scan colors special bg = .ok c := by
  unfold choose_accent_scan
  dsimp only
  rw [hcands, buildRanked_ok _ _ hok]
  have hmap : rankedOf (relative_luminance bg) (x :: l)
      = (x :: l).map
          (fun h => (h, lumQ h, absQ (lumQ h - relative_luminance bg))) := rfl
  have hfm : (rankedOf (relative_luminance bg) (x :: l)).find? acceptB
      = some (c, lumQ c, absQ (lumQ c - relative_luminance bg)) := by
    rw [hmap, find?_map_eq]
    have : ((x :: l).find? fun h =>
        acceptB (h, lumQ h, absQ (lumQ h - relative_luminance bg))) = some c :=
      hfind
    rw [this]
    rfl
  rw [rankedOf_cons] at hfm ⊢
  show (match ((x, lumQ x, absQ (lumQ x - relative_luminance bg))
        :: rankedOf (relative_luminance bg) l).find? acceptB with
    | some t => Except.ok t.1
    | none => Except.ok (minByKey (fun t => absQ (t.2.1 - LUMINANCE_TARGET))
        (x, lumQ x, absQ (lumQ x - relative_luminance bg))
        (rankedOf (relative_luminance bg) l)).1) = Except.ok c
  rw [hfm]

theorem scan_fallback (colors special : String → Option String)
    (bg : ℕ × ℕ × ℕ) (x : String) (l : List String)
    (hok : ∀ h ∈ x :: l, (hex_to_rgb h).isOk = true)
    (hcands : candidate_colors colors special = x :: l)
    (hnone : (x :: l).find? (acceptHex (relative_luminance bg)) = none) :
    choose_accent_scan colors special bg = .ok (minByKey keyH x l) := by
  unfold choose_accent_scan
  dsimp only
  rw [hcands, buildRanked_ok _ _ hok]
  have hmap : rankedOf (relative_luminance bg) (x :: l)
      = (x :: l).map
          (fun h => (h, lumQ h, absQ (lumQ h - relative_luminance bg))) := rfl
  have hfm : (rankedOf (relative_luminance bg) (x :: l)).find? acceptB = none := by
    rw [hmap, find?_map_eq]
    have : ((x :: l).find? fun h =>
        acceptB (h, lumQ h, absQ (lumQ h - relative_luminance bg))) = none :=
      hnone
    rw [this]
    rfl
  rw [rankedOf_cons] at hfm ⊢
  show (match ((x, lumQ x, absQ (lumQ x - relative_luminance bg))
        :: rankedOf (relative_luminance bg) l).find? acceptB with
    | some t => Except.ok t.1
    | none => Except.ok (minByKey (fun t => absQ (t.2.1 - LUMINANCE_TARGET))
        (x, lumQ x, absQ (lumQ x - relative_luminance bg))
        (rankedOf (relative_luminance bg) l)).1)
    = Except.ok (minByKey keyH x l)
  rw [hfm]
  have hmin := minByKey_map
    (fun h : String => (h, lumQ h, absQ (lumQ h - relative_luminance bg)))
    (fun t => absQ (t.2.1 - LUMINANCE_TARGET)) x l
  show Except.ok (minByKey (fun t => absQ (t.2.1 - LUMINANCE_TARGET))
      (x, lumQ x, absQ (lumQ x - relative_luminance bg))
      ((l.map fun h => (h, lumQ h, absQ (lumQ h - relative_luminance bg))))).1
    = Except.ok (minByKey keyH x l)
  rw [hmin]
  rfl

/-- Claim C1: with no override environment slot in effect and every
candidate a parseable hex color, `choose_accent` returns the first
candidate in enumeration order (color4, color5, color2, color6, color3,
color1, color7, then the special foreground) whose luminance lies in the
clamped band `[max 0 (0.45-0.25), min 1 (0.45+0.25)]` and whose contrast
against the background is at least `0.25`, whenever such a candidate
exists — even when an earlier-priority candidate outside the band
exists. -/
theorem c1_primary_first_match (env_slot : Option String)
    (colors special : String → Option String) (bg : ℕ × ℕ × ℕ) (c : String)
    (henv : truthy env_slot = none)
    (hok : ∀ h ∈ candidate_colors colors special, (hex_to_rgb h).isOk = true)
    (hfind : (candidate_colors colors special).find?
        (acceptHex (relative_luminance bg)) = some c) :
    choose_accent env_slot colors special bg = .ok c := by
  rw [choose_accent_no_env _ _ _ _ henv]
  obtain ⟨x, l, hcands⟩ : ∃ x l, candidate_colors colors special = x :: l := by
    cases hc : candidate_colors colors special with
    | nil => rw [hc] at hfind; exact absurd hfind (by simp)
    | cons x l => exact ⟨x, l, rfl⟩
  rw [hcands] at hok hfind
  exact scan_find colors special bg x c l hok hcands hfind

theorem c1_primary_first_match_witness :
    choose_accent none
      (fun k => if k = "color4" then some "#101010"
        else if k = "color5" then some "#3a6ea5" else none)
      (fun _ => none) (18, 18, 18) = .ok "#3a6ea5" :=
  c1_primary_first_match none _ _ (18, 18, 18) "#3a6ea5" rfl (by decide)
    (by decide)

/-- Claim C2: with no override in effect, parseable candidates, and no
candidate passing the primary band-and-contrast rule, `choose_accent`
returns the candidate whose luminance is closest to the target `0.45`
(smallest `keyH`), the first such in enumeration order on ties,
regardless of contrast. -/
theorem c2_fallback_closest (env_slot : Option String)
    (colors special : String → Option String) (bg : ℕ × ℕ × ℕ) (c : String)
    (henv : truthy env_slot = none)
    (hok : ∀ h ∈ candidate_colors colors special, (hex_to_rgb h).isOk = true)
    (hnone : (candidate_colors colors special).find?
        (acceptHex (relative_luminance bg)) = none)
    (hmin : (candidate_colors colors special).find?
        (fun h => (candidate_colors colors special).all
          (fun h2 => decide (keyH h ≤ keyH h2))) = some c) :
    choose_accent env_slot colors special bg = .ok c := by
  rw [choose_accent_no_env _ _ _ _ henv]
  obtain ⟨x, l, hcands⟩ : ∃ x l, candidate_colors colors special = x :: l := by
    cases hc : candidate_colors colors special with
    | nil => rw [hc] at hmin; exact absurd hmin (by simp)
    | cons x l => exact ⟨x, l, rfl⟩
  rw [hcands] at hok hnone hmin
  rw [minByKey_find keyH x l] at hmin
  rw [scan_fallback colors special bg x l hok hcands hnone]
  exact congrArg Except.ok (Option.some.inj hmin)

theorem c2_fallback_closest_witness :
    choose_accent none
      (fun k => if k = "color4" then some "#101010"
        else if k = "color5" then some "#202020" else none)
      (fun _ => none) (0, 0, 0) = .ok "#202020" :=
  c2_fallback_closest none _ _ (0, 0, 0) "#202020" rfl (by decide) (by decide)
    (by decide)

/-- Claim C3: when the override environment slot names a slot present in
the colors map with a (nonempty) hex value, `choose_accent` returns that
value immediately, with no luminance or contrast filtering; when the
named slot is absent from the colors map, `choose_accent` behaves exactly
as the normal candidate-enumeration selection (no failure). -/
theorem c3_override (slot : String) (colors special : String → Option String)
    (bg : ℕ × ℕ × ℕ) (v : String) (hslot : slot ≠ "") :
    (colors slot = some v → v ≠ "" →
      choose_accent (some slot) colors special bg = .ok v)
    ∧ (colors slot = none →
      choose_accent (some slot) colors special bg
        = choose_accent none colors special bg) := by
  constructor
  · intro hv hvne
    simp [choose_accent, truthy, hslot, hv, hvne]
  · intro hnone
    simp [choose_accent, truthy, hslot, hnone]

theorem c3_override_witness :
    choose_accent (some "color4")
      (fun k => if k = "color4" then some "#112233" else none)
      (fun _ => none) (0, 0, 0) = .ok "#112233" :=
  (c3_override "color4" _ _ (0, 0, 0) "#112233" (by decide)).1 (by decide)
    (by decide)

/-- Claim C4: with no override in effect and parseable candidates,
`choose_accent` raises the `PaletteError` about unusable accent colors
exactly when the candidate enumeration is empty (no priority slot has a
truthy value and the special foreground is absent or empty); in every
other case it returns one of the enumerated candidate hex colors. -/
theorem c4_error_iff_empty (env_slot : Option String)
    (colors special : String → Option String) (bg : ℕ × ℕ × ℕ)
    (henv : truthy env_slot = none)
    (hok : ∀ h ∈ candidate_colors colors special, (hex_to_rgb h).isOk = true) :
    (choose_accent env_slot colors special bg
        = .error (.paletteError "Palette did not contain any usable accent colors.")
      ↔ candidate_colors colors special = [])
    ∧ (candidate_colors colors special ≠ [] →
        ∃ h ∈ candidate_colors colors special,
          choose_accent env_slot colors special bg = .ok h) := by
  rw [choose_accent_no_env _ _ _ _ henv]
  have hmain : candidate_colors colors special ≠ [] →
      ∃ h ∈ candidate_colors colors special,
        choose_accent_scan colors special bg = .ok h := by
    intro hne
    obtain ⟨x, l, hcands⟩ : ∃ x l, candidate_colors colors special = x :: l := by
      cases hc : candidate_colors colors special with
      | nil => exact absurd hc hne
      | cons x l => exact ⟨x, l, rfl⟩
    rw [hcands] at hok
    cases hf : (x :: l).find? (acceptHex (relative_luminance bg)) with
    | some c =>
      refine ⟨c, ?_, scan_find colors special bg x c l hok hcands hf⟩
      rw [hcands]
      exact List.mem_of_find?_eq_some hf
    | none =>
      refine ⟨minByKey keyH x l, ?_,
        scan_fallback colors special bg x l hok hcands hf⟩
      rw [hcands]
      rcases minByKey_mem keyH x l with hm | hm
      · rw [hm]; simp
      · simp [hm]
  constructor
  · constructor
    · intro herr
      by_contra hne
      obtain ⟨h, _, hok2⟩ := hmain hne
      rw [hok2] at herr
      exact absurd herr (by simp)
    · intro hcands
      exact scan_empty colors special bg hcands
  · exact hmain

theorem c4_error_iff_empty_witness :
    choose_accent none (fun _ => none) (fun _ => none) (0, 0, 0)
      = .error (.paletteError "Palette did not contain any usable accent colors.") :=
  (c4_error_iff_empty none _ _ (0, 0, 0) rfl (by decide)).1.mpr rfl

/-- Claim C10: `choose_accent` treats empty-string values as absent: a
priority slot or the special foreground holding `""` is skipped during
candidate enumeration, an override naming a slot whose value is `""`
falls through to normal selection, and an override environment variable
equal to `""` disables the override entirely. -/
theorem c10_empty_string_values (colors special : String → Option String)
    (bg : ℕ × ℕ × ℕ) (k slot : String) :
    (colors k = some "" →
      candidate_colors colors special
        = candidate_colors (fun q => if q = k then none else colors q) special)
    ∧ (special "foreground" = some "" →
      candidate_colors colors special
        = candidate_colors colors
            (fun q => if q = "foreground" then none else special q))
    ∧ (slot ≠ "" → colors slot = some "" →
      choose_accent (some slot) colors special bg
        = choose_accent none colors special bg)
    ∧ (choose_accent (some "") colors special bg
        = choose_accent none colors special bg) := by
  refine ⟨?_, ?_, ?_, ?_⟩
  · intro hk
    unfold candidate_colors
    have : ∀ key ∈ ACCENT_PRIORITY,
        truthy (colors key)
          = truthy (if key = k then none else colors key) := by
      intro key _
      by_cases hqk : key = k
      · rw [if_pos hqk, hqk, hk]
        rfl
      · rw [if_neg hqk]
    rw [filterMap_congr_mem this]
  · intro hf
    unfold candidate_colors
    rw [hf]
    simp [truthy]
  · intro hslot hempty
    simp [choose_accent, truthy, hslot, hempty]
  · rfl

theorem c10_empty_string_values_witness :
    choose_accent (some "color5")
      (fun k => if k = "color4" then some "#3a6ea5"
        else if k = "color5" then some "" else none)
      (fun _ => none) (0, 0, 0)
      = choose_accent none
          (fun k => if k = "color4" then some "#3a6ea5"
            else if k = "color5" then some "" else none)
          (fun _ => none) (0, 0, 0) :=
  (c10_empty_string_values _ _ (0, 0, 0) "color4" "color5").2.2.1 (by decide)
    (by decide)

theorem length_six {α : Type} (l : List α) (h : l.length = 6) :
    ∃ a b c d e f, l = [a, b, c, d, e, f] := by
  rcases l with _ | ⟨a, _ | ⟨b, _ | ⟨c, _ | ⟨d, _ | ⟨e, _ | ⟨f, _ | ⟨g, t⟩⟩⟩⟩⟩⟩⟩
  · simp at h
  · simp at h
  · simp at h
  · simp at h
  · simp at h
  · simp at h
  · exact ⟨a, b, c, d, e, f, rfl⟩
  · simp at h

theorem lower_hex_char (c : Char) (h : isLowerHexB c = true) :
    ∃ v, hexVal c = some v ∧ v < 16 ∧ hexDigitChar v = c := by
  unfold isLowerHexB at h
  rw [Bool.or_eq_true, decide_eq_true_eq, decide_eq_true_eq] at h
  rcases h with h | h
  · have h1 : 48 ≤ c.toNat := h.1
    have h2 : c.toNat ≤ 57 := h.2
    refine ⟨c.toNat - 48, ?_, by omega, ?_⟩
    · unfold hexVal
      rw [if_pos h]
    · unfold hexDigitChar
      rw [if_pos (by omega)]
      have : 48 + (c.toNat - 48) = c.toNat := by omega
      rw [this, Char.ofNat_toNat]
  · have h1 : 97 ≤ c.toNat := h.1
    have h2 : c.toNat ≤ 102 := h.2
    have hno : ¬ ('0' ≤ c ∧ c ≤ '9') := by
      intro hc
      have : c.toNat ≤ 57 := hc.2
      omega
    refine ⟨c.toNat - 87, ?_, by omega, ?_⟩
    · unfold hexVal
      rw [if_neg hno, if_pos h]
    · unfold hexDigitChar
      rw [if_neg (by omega)]
      have : 87 + (c.toNat - 87) = c.toNat := by omega
      rw [this, Char.ofNat_toNat]

theorem lower_hex_ne_hash (c : Char) (h : isLowerHexB c = true) : ¬ c = '#' := by
  intro heq
  rw [heq] at h
  revert h
  decide

theorem hexPair_round (c1 c2 : Char) (h1 : isLowerHexB c1 = true)
    (h2 : isLowerHexB c2 = true) :
    ∃ v, hexPair c1 c2 = .ok v
      ∧ hexDigitChar (v / 16) = c1 ∧ hexDigitChar (v % 16) = c2 := by
  obtain ⟨v1, hv1, hb1, hc1⟩ := lower_hex_char c1 h1
  obtain ⟨v2, hv2, hb2, hc2⟩ := lower_hex_char c2 h2
  refine ⟨16 * v1 + v2, ?_, ?_, ?_⟩
  · unfold hexPair
    rw [hv1, hv2]
  · have : (16 * v1 + v2) / 16 = v1 := by omega
    rw [this, hc1]
  · have : (16 * v1 + v2) % 16 = v2 := by omega
    rw [this, hc2]

/-- Claim C9 (counterexample): the claim quantifies over every valid
6-hex-digit color string, but an uppercase string does not round-trip
byte-identically: `#AABBCC` parses to `(170, 187, 204)`, which formats
back as the lowercase `#aabbcc`. -/
theorem c9_roundtrip_uppercase_fails :
    isValidHexColor "#AABBCC" = true
    ∧ hex_to_rgb "#AABBCC" = .ok (170, 187, 204)
    ∧ rgb_to_hex (170, 187, 204) = "#aabbcc"
    ∧ rgb_to_hex (170, 187, 204) ≠ "#AABBCC" := by
  refine ⟨by decide, by decide, by decide, by decide⟩

/-- Claim C9 (amended): for every valid lowercase 6-hex-digit color
string `#rrggbb`, `hex_to_rgb` succeeds and formatting the resulting
triple back yields the original string byte-for-byte (the formatter is
lowercase, so the exact round trip holds on lowercase inputs; uppercase
inputs round-trip to their lowercase equivalent instead). -/
theorem c9_roundtrip_lower (s : String) (h : isLowerHexColor s = true) :
    ∃ rgb, hex_to_rgb s = .ok rgb ∧ rgb_to_hex rgb = s := by
  unfold isLowerHexColor at h
  cases hl : s.toList with
  | nil => rw [hl] at h; simp at h
  | cons c rest =>
    rw [hl] at h
    simp only [Bool.and_eq_true, decide_eq_true_eq, List.all_eq_true] at h
    obtain ⟨⟨hc, hlen⟩, hall⟩ := h
    subst hc
    obtain ⟨c1, c2, c3, c4, c5, c6, hrest⟩ := length_six rest hlen
    subst hrest
    have hx1 := hall c1 (by simp)
    have hx2 := hall c2 (by simp)
    have hx3 := hall c3 (by simp)
    have hx4 := hall c4 (by simp)
    have hx5 := hall c5 (by simp)
    have hx6 := hall c6 (by simp)
    obtain ⟨r, hr, hr1, hr2⟩ := hexPair_round c1 c2 hx1 hx2
    obtain ⟨g, hg, hg1, hg2⟩ := hexPair_round c3 c4 hx3 hx4
    obtain ⟨b, hb, hb1, hb2⟩ := hexPair_round c5 c6 hx5 hx6
    refine ⟨(r, g, b), ?_, ?_⟩
    · unfold hex_to_rgb
      rw [hl]
      have hdrop : List.dropWhile (fun c => decide (c = '#'))
          ['#', c1, c2, c3, c4, c5, c6] = [c1, c2, c3, c4, c5, c6] := by
        rw [List.dropWhile_cons_of_pos (by decide)]
        rw [List.dropWhile_cons_of_neg]
        simp only [decide_eq_true_eq]
        exact lower_hex_ne_hash c1 hx1
      rw [hdrop]
      show (do
        let r ← hexPair c1 c2
        let g ← hexPair c3 c4
        let b ← hexPair c5 c6
        Except.ok (r, g, b) : Except Err (ℕ × ℕ × ℕ)) = Except.ok (r, g, b)
      simp only [hr, hg, hb]
      rfl
    · unfold rgb_to_hex
      show String.mk ('#' :: [hexDigitChar (r / 16), hexDigitChar (r % 16),
        hexDigitChar (g / 16), hexDigitChar (g % 16),
        hexDigitChar (b / 16), hexDigitChar (b % 16)]) = s
      rw [hr1, hr2, hg1, hg2, hb1, hb2, ← hl]
      rfl

theorem c9_roundtrip_lower_witness :
    ∃ rgb, hex_to_rgb "#3a6ea5" = .ok rgb ∧ rgb_to_hex rgb = "#3a6ea5" :=
  c9_roundtrip_lower "#3a6ea5" (by decide)

theorem except_bind_ok {α β : Type} (a : α) (f : α → Except Err β) :
    (Except.ok a : Except Err α) >>= f = f a := rfl

theorem except_bind_err {α β : Type} (e : Err) (f : α → Except Err β) :
    (Except.error e : Except Err α) >>= f = .error e := rfl

theorem subFirst_hit (m : List Char → Option (List Char)) (r x s : List Char)
    (hx : m (x ++ s) = some s) : subFirst m r (x ++ s) = some (r ++ s) := by
  cases x with
  | nil =>
    cases s with
    | nil =>
      simp only [List.nil_append] at hx
      unfold subFirst
      rw [hx]
      rfl
    | cons c s' =>
      simp only [List.nil_append] at hx ⊢
      unfold subFirst
      rw [hx]
  | cons c x' =>
    simp only [List.cons_append] at hx ⊢
    unfold subFirst
    rw [hx]

theorem subFirst_skip (m : List Char → Option (List Char)) (r : List Char) :
    ∀ (p s t : List Char), NoMatchPre m p → subFirst m r s = some t →
      subFirst m r (p ++ s) = some (p ++ t) := by
  intro p
  induction p with
  | nil => intro s t _ h; simpa using h
  | cons c p' ih =>
    intro s t hnm h
    have h0 : m (c :: (p' ++ s)) = none := by
      have := hnm 0 s (by simp)
      simpa using this
    simp only [List.cons_append]
    unfold subFirst
    rw [h0, ih s t ?_ h]
    · rfl
    · intro j s2 hj
      have := hnm (j + 1) s2 (by simp; omega)
      simpa [List.drop_succ_cons] using this

/-- Claim C5 (counterexample): a run in which the stylesheet update
succeeds but the widget-config update raises `PaletteError` leaves the
stylesheet rewritten and the config untouched — a partial-success state,
contradicting "either both target files are fully updated or neither
file is modified". -/
theorem c5_partial_success_possible :
    (apply_updates "#112233" (1, 2, 3)
        ⟨("--accent: #aabbcc;--accent-rgb: 1, 2, 3;--yasb-background: rgba(0,0,0,0.5);").toList,
         ("widgets: none").toList⟩).1
      = .error (.paletteError "No color entries updated in config.yaml; expected at least one.")
    ∧ (apply_updates "#112233" (1, 2, 3)
        ⟨("--accent: #aabbcc;--accent-rgb: 1, 2, 3;--yasb-background: rgba(0,0,0,0.5);").toList,
         ("widgets: none").toList⟩).2.css
      ≠ ("--accent: #aabbcc;--accent-rgb: 1, 2, 3;--yasb-background: rgba(0,0,0,0.5);").toList
    ∧ (apply_updates "#112233" (1, 2, 3)
        ⟨("--accent: #aabbcc;--accent-rgb: 1, 2, 3;--yasb-background: rgba(0,0,0,0.5);").toList,
         ("widgets: none").toList⟩).2.config
      = ("widgets: none").toList := by
  refine ⟨by decide, by decide, by decide⟩

/-- Claim C5 (amended): a `PaletteError` during the stylesheet update
aborts the pipeline before the widget-config update runs, leaving both
files untouched; a `PaletteError` anywhere in the two-step pipeline
leaves the widget config untouched — but a failure in the config step
happens after the stylesheet file was already rewritten, so the
stylesheet alone may be updated. -/
theorem c5_failure_ordering (a : String) (bg : ℕ × ℕ × ℕ) (fs : FS) :
    (∀ e, update_css_pure a bg fs.css = .error e →
      apply_updates a bg fs = (.error e, fs))
    ∧ (∀ e, (apply_updates a bg fs).1 = .error e →
      (apply_updates a bg fs).2.config = fs.config) := by
  constructor
  · intro e he
    unfold apply_updates update_css_fs
    rw [he]
  · intro e he
    unfold apply_updates update_css_fs at he ⊢
    cases hc : update_css_pure a bg fs.css with
    | error e2 => rfl
    | ok t =>
      unfold update_config_fs at he ⊢
      dsimp only at he ⊢
      cases hcf : update_config_pure a fs.config with
      | error e3 => rfl
      | ok p =>
        rw [hc] at he
        dsimp only at he
        rw [hcf] at he
        simp at he

theorem c5_failure_ordering_witness :
    apply_updates "x" (0, 0, 0) ⟨[], []⟩
      = (.error (.paletteError "Unexpected color format"), ⟨[], []⟩) :=
  (c5_failure_ordering "x" (0, 0, 0) ⟨[], []⟩).1
    (.paletteError "Unexpected color format") (by decide)

/-- Claim C6 (counterexample): a stylesheet with two `--accent:` matches
is not a hard error: `update_css` succeeds, substitutes only the first
occurrence, and leaves the second (`--accent: #222222;`) untouched. -/
theorem c6_multiple_matches_not_error :
    update_css_pure "#aabbcc" (0, 0, 0)
        ("--accent: #111111;--accent: #222222;--accent-rgb: 1, 2, 3;--yasb-background: rgba(1,2,3,0.9);").toList
      = .ok ("--accent: #aabbcc;--accent: #222222;--accent-rgb: 170, 187, 204;--yasb-background: rgba(0, 0, 0, 0.72);").toList := by
  decide

/-- Claim C6 (amended): each of the three stylesheet substitutions
replaces only the first occurrence of its pattern; a zero-match count for
any pattern raises `PaletteError` (before the file is written, since the
write happens only after all three substitutions); but two or more
matches of a pattern are not an error — the update succeeds, substituting
the first occurrence and leaving the rest unchanged.  Formally: the
update fails exactly when one of the three sequential substitution steps
finds no match; and a text decomposing as (match-free prefix, match,
anything) is rewritten to (prefix, replacement, anything) regardless of
further matches in the tail. -/
theorem c6_zero_match_fatal_first_substituted :
    (∀ (a : String) (bg : ℕ × ℕ × ℕ) (css : List Char) (rgbA : ℕ × ℕ × ℕ),
      hex_to_rgb a = .ok rgbA →
      ((update_css_pure a bg css).isOk = false ↔
        subFirst m1 (repl1 a) css = none
        ∨ (∃ u, subFirst m1 (repl1 a) css = some u ∧
            (subFirst m2 (repl2 rgbA) u = none
             ∨ ∃ v, subFirst m2 (repl2 rgbA) u = some v ∧
                subFirst m3 (repl3 bg) v = none))))
    ∧ (∀ (m : List Char → Option (List Char)) (r pre x s : List Char),
        NoMatchPre m pre → m (x ++ s) = some s →
        subFirst m r (pre ++ (x ++ s)) = some (pre ++ (r ++ s))) := by
  constructor
  · intro a bg css rgbA hA
    unfold update_css_pure
    rw [hA]
    cases h1 : subFirst m1 (repl1 a) css with
    | none => simp [Except.isOk, Except.toBool, except_bind_ok, except_bind_err]
    | some u =>
      cases h2 : subFirst m2 (repl2 rgbA) u with
      | none =>
        simp [Except.isOk, Except.toBool, except_bind_ok, except_bind_err, h2]
      | some v =>
        cases h3 : subFirst m3 (repl3 bg) v with
        | none =>
          simp [Except.isOk, Except.toBool, except_bind_ok, except_bind_err,
            h2, h3]
        | some w =>
          simp [Except.isOk, Except.toBool, except_bind_ok, except_bind_err,
            h2, h3]
  · intro m r pre x s hnm hx
    exact subFirst_skip m r pre (x ++ s) (r ++ s) hnm (subFirst_hit m r x s hx)

theorem c6_zero_match_fatal_first_substituted_witness :
    (update_css_pure "#112233" (0, 0, 0) ("no patterns here").toList).isOk
      = false :=
  ((c6_zero_match_fatal_first_substituted).1 "#112233" (0, 0, 0)
    ("no patterns here").toList (17, 34, 51) (by decide)).mpr
    (Or.inl (by decide))

theorem mLit_append (L : List Char) : ∀ s, mLit L (L ++ s) = some s := by
  induction L with
  | nil => intro s; rfl
  | cons c L ih =>
    intro s
    simp only [List.cons_append]
    unfold mLit
    rw [if_pos rfl]
    exact ih s

theorem mLit_length : ∀ (L s r : List Char), mLit L s = some r →
    s.length = L.length + r.length := by
  intro L
  induction L with
  | nil =>
    intro s r h
    unfold mLit at h
    cases h
    simp
  | cons c L ih =>
    intro s r h
    cases s with
    | nil => exact absurd h (by unfold mLit; simp)
    | cons x s' =>
      unfold mLit at h
      by_cases hx : x = c
      · rw [if_pos hx] at h
        have := ih s' r h
        simp [this]
        omega
      · rw [if_neg hx] at h
        exact absurd h (by simp)

theorem mHex6_length : ∀ (s r : List Char), mHex6 s = some r →
    s.length = 6 + r.length := by
  intro s r h
  unfold mHex6 at h
  rcases s with _ | ⟨a, _ | ⟨b, _ | ⟨c, _ | ⟨d, _ | ⟨e, _ | ⟨f, t⟩⟩⟩⟩⟩⟩ <;>
    simp at h
  obtain ⟨_, ht⟩ := h
  rw [← ht]
  simp
  omega

theorem mHex6_append (hex : List Char) (s : List Char)
    (hlen : hex.length = 6) (hdig : ∀ c ∈ hex, isHexDigitB c = true) :
    mHex6 (hex ++ s) = some s := by
  obtain ⟨a, b, c, d, e, f, rfl⟩ := length_six hex hlen
  unfold mHex6
  simp only [List.cons_append, List.nil_append]
  rw [if_pos]
  simp only [Bool.and_eq_true]
  refine ⟨⟨⟨⟨⟨?_, ?_⟩, ?_⟩, ?_⟩, ?_⟩, ?_⟩ <;> apply hdig <;> simp

theorem opt_bind_some {α β : Type} (a : α) (f : α → Option β) :
    (some a >>= f) = f a := rfl

theorem opt_bind_none {α β : Type} (f : α → Option β) :
    ((none : Option α) >>= f) = none := rfl

theorem configM_consumes : ∀ (c : Char) (s rest : List Char),
    configM (c :: s) = some rest → rest.length ≤ s.length := by
  intro c s rest h
  unfold configM at h
  cases hm1 : mLit litColorHead (c :: s) with
  | none => rw [hm1, opt_bind_none] at h; exact absurd h (by simp)
  | some s1 =>
    rw [hm1, opt_bind_some] at h
    cases hm2 : mHex6 s1 with
    | none => rw [hm2, opt_bind_none] at h; exact absurd h (by simp)
    | some s2 =>
      rw [hm2, opt_bind_some] at h
      have l1 := mLit_length _ _ _ hm1
      have l2 := mHex6_length _ _ hm2
      have l3 := mLit_length _ _ _ h
      simp only [litColorHead, List.length_cons, List.length_nil] at l1 l3
      simp only [List.length_cons] at l1 l2 l3 ⊢
      omega

theorem configM_head_ne (x : Char) (s : List Char) (hx : x ≠ sq) :
    configM (x :: s) = none := by
  unfold configM litColorHead mLit
  rw [if_neg hx]
  rfl

theorem configM_site (hex s : List Char) (hlen : hex.length = 6)
    (hdig : ∀ c ∈ hex, isHexDigitB c = true) :
    configM ((litColorHead ++ hex ++ [sq]) ++ s) = some s := by
  unfold configM
  have hassoc : (litColorHead ++ hex ++ [sq]) ++ s
      = litColorHead ++ (hex ++ (sq :: s)) := by simp
  rw [hassoc, mLit_append, opt_bind_some, mHex6_append hex (sq :: s) hlen hdig,
    opt_bind_some]
  unfold mLit
  rw [if_pos rfl]
  rfl

theorem subAllAux_fuel (m : List Char → Option (List Char)) (r : List Char)
    (hm : ∀ c s rest, m (c :: s) = some rest → rest.length ≤ s.length) :
    ∀ (f : ℕ) (s : List Char), s.length ≤ f →
      subAllAux m r f s = subAllAux m r s.length s := by
  intro f
  induction f using Nat.strong_induction_on with
  | _ f ih =>
    intro s hs
    cases s with
    | nil => cases f <;> rfl
    | cons c s' =>
      cases f with
      | zero => simp at hs
      | succ g =>
        have hglen : s'.length ≤ g := by
          simp only [List.length_cons] at hs
          omega
        show subAllAux m r (g + 1) (c :: s')
          = subAllAux m r (s'.length + 1) (c :: s')
        cases hmc : m (c :: s') with
        | none =>
          unfold subAllAux
          rw [hmc]
          rw [ih g (by omega) s' hglen]
        | some rest =>
          have hrest := hm c s' rest hmc
          unfold subAllAux
          rw [hmc]
          dsimp only
          rw [if_pos (le_trans hrest hglen), if_pos hrest]
          rw [ih g (by omega) rest (le_trans hrest hglen)]
          rw [ih s'.length (by omega) rest hrest]

theorem subAll_cons_none (m : List Char → Option (List Char)) (r : List Char)
    (c : Char) (s : List Char) (h : m (c :: s) = none) :
    subAll m r (c :: s) = (c :: (subAll m r s).1, (subAll m r s).2) := by
  show subAllAux m r (s.length + 1) (c :: s) = _
  unfold subAllAux
  rw [h]
  rfl

theorem subAll_cons_some (m : List Char → Option (List Char)) (r : List Char)
    (c : Char) (s rest : List Char)
    (hm : ∀ c s rest, m (c :: s) = some rest → rest.length ≤ s.length)
    (h : m (c :: s) = some rest) :
    subAll m r (c :: s)
      = (r ++ (subAll m r rest).1, (subAll m r rest).2 + 1) := by
  have hrest := hm c s rest h
  show subAllAux m r (s.length + 1) (c :: s) = _
  unfold subAllAux
  rw [h]
  dsimp only
  rw [if_pos hrest]
  rw [subAllAux_fuel m r hm s.length rest hrest]
  rfl

theorem subAll_config_plain (a : String) :
    ∀ (p : List Char), (∀ c ∈ p, c ≠ sq) → ∀ s,
      subAll configM (replConfig a) (p ++ s)
        = (p ++ (subAll configM (replConfig a) s).1,
           (subAll configM (replConfig a) s).2) := by
  intro p
  induction p with
  | nil => intro _ s; simp
  | cons c p' ih =>
    intro hp s
    have hc : configM (c :: (p' ++ s)) = none :=
      configM_head_ne c (p' ++ s) (hp c (by simp))
    simp only [List.cons_append]
    rw [subAll_cons_none configM (replConfig a) c (p' ++ s) hc]
    rw [ih (fun d hd => hp d (by simp [hd])) s]

theorem subAll_config_site (a : String) (hex s : List Char)
    (hlen : hex.length = 6) (hdig : ∀ c ∈ hex, isHexDigitB c = true) :
    subAll configM (replConfig a) ((litColorHead ++ hex ++ [sq]) ++ s)
      = (replConfig a ++ (subAll configM (replConfig a) s).1,
         (subAll configM (replConfig a) s).2 + 1) := by
  have hsite := configM_site hex s hlen hdig
  have hshape : (litColorHead ++ hex ++ [sq]) ++ s
      = sq :: (['c', 'o', 'l', 'o', 'r', sq, ':', ' ', sq, '#'] ++ hex ++ [sq] ++ s) := by
    simp [litColorHead]
  rw [hshape] at hsite ⊢
  exact subAll_cons_some configM (replConfig a) sq _ s configM_consumes hsite

theorem subAll_config_blocks (a : String) :
    ∀ (L : List CBlock), (∀ b ∈ L, CBlock.okB b = true) →
      subAll configM (replConfig a) (flattenC L)
        = (flattenC (creplace a L), L.countP CBlock.isSite) := by
  intro L
  induction L with
  | nil => intro _; rfl
  | cons b L' ih =>
    intro hok
    have hL' := ih (fun x hx => hok x (by simp [hx]))
    cases b with
    | plain p =>
      have hp : ∀ c ∈ p, c ≠ sq := by
        have := hok (.plain p) (by simp)
        simp only [CBlock.okB, List.all_eq_true, Bool.not_eq_true',
          decide_eq_false_iff_not] at this
        exact this
      show subAll configM (replConfig a) (p ++ flattenC L') = _
      rw [subAll_config_plain a p hp (flattenC L'), hL']
      show (p ++ flattenC (creplace a L'), L'.countP CBlock.isSite)
        = (flattenC (creplace a (.plain p :: L')),
           (CBlock.plain p :: L').countP CBlock.isSite)
      rw [List.countP_cons_of_neg]
      · rfl
      · simp [CBlock.isSite]
    | site hex =>
      have hx := hok (.site hex) (by simp)
      simp only [CBlock.okB, Bool.and_eq_true, decide_eq_true_eq,
        List.all_eq_true] at hx
      show subAll configM (replConfig a)
        ((litColorHead ++ hex ++ [sq]) ++ flattenC L') = _
      rw [subAll_config_site a hex (flattenC L') hx.1 hx.2, hL']
      show (replConfig a ++ flattenC (creplace a L'),
            L'.countP CBlock.isSite + 1)
        = (flattenC (creplace a (.site hex :: L')),
           (CBlock.site hex :: L').countP CBlock.isSite)
      rw [List.countP_cons_of_pos]
      · rfl
      · simp [CBlock.isSite]

/-- Claim C7: `update_config` replaces every occurrence of the
`'color': '#RRGGBB'` pattern with the accent replacement: on a config
text made of quote-free fragments interleaved with such entries, every
entry is rewritten; zero entries raises `PaletteError` (so the file is
not written); one or more entries succeeds, returning the new text and
the occurrence count. -/
theorem c7_replace_all_occurrences (a : String) (L : List CBlock)
    (hok : ∀ b ∈ L, CBlock.okB b = true) :
    update_config_pure a (flattenC L)
      = if L.countP CBlock.isSite = 0 then
          .error (.paletteError
            "No color entries updated in config.yaml; expected at least one.")
        else .ok (flattenC (creplace a L), L.countP CBlock.isSite) := by
  unfold update_config_pure
  rw [subAll_config_blocks a L hok]

theorem c7_replace_all_occurrences_witness :
    update_config_pure "#112233"
        (flattenC [CBlock.plain ("color: ").toList,
          CBlock.site ("aabbcc").toList,
          CBlock.plain (" and ").toList,
          CBlock.site ("ffeedd").toList])
      = .ok (flattenC (creplace "#112233"
          [CBlock.plain ("color: ").toList,
            CBlock.site ("aabbcc").toList,
            CBlock.plain (" and ").toList,
            CBlock.site ("ffeedd").toList]), 2) := by
  rw [c7_replace_all_occurrences "#112233" _ (by decide)]
  decide

theorem m1_head_ne (x : Char) (s : List Char) (hx : x ≠ '-') :
    m1 (x :: s) = none := by
  unfold m1 litAccent mLit
  rw [if_neg hx]
  rfl

theorem m2_head_ne (x : Char) (s : List Char) (hx : x ≠ '-') :
    m2 (x :: s) = none := by
  unfold m2 litAccentRgb mLit
  rw [if_neg hx]
  rfl

theorem m3_head_ne (x : Char) (s : List Char) (hx : x ≠ '-') :
    m3 (x :: s) = none := by
  unfold m3 litYasbBg mLit
  rw [if_neg hx]
  rfl

theorem nmp_nodash (m : List Char → Option (List Char))
    (hhead : ∀ x s, x ≠ '-' → m (x :: s) = none) (t : List Char)
    (ht : ∀ c ∈ t, c ≠ '-') : NoMatchPre m t := by
  intro j s hj
  rw [List.drop_eq_getElem_cons hj, List.cons_append]
  exact hhead _ _ (ht _ (List.getElem_mem hj))

theorem nmp_append (m : List Char → Option (List Char)) (a b : List Char)
    (ha : NoMatchPre m a) (hb : NoMatchPre m b) : NoMatchPre m (a ++ b) := by
  intro j s hj
  rw [List.drop_append_eq_append_drop]
  by_cases hja : j < a.length
  · have h0 : j - a.length = 0 := by omega
    rw [h0, List.drop_zero, List.append_assoc]
    exact ha j (b ++ s) hja
  · have h0 : a.drop j = [] := List.drop_eq_nil_of_le (by omega)
    rw [h0, List.nil_append]
    apply hb
    simp only [List.length_append] at hj
    omega

theorem nmp_m1_lit2 : NoMatchPre m1 litAccentRgb := by
  intro j s hj
  simp only [litAccentRgb, List.length_cons, List.length_nil] at hj
  interval_cases j <;>
    simp [m1, litAccent, litAccentRgb, mLit]

theorem nmp_m1_lit3 : NoMatchPre m1 litYasbBg := by
  intro j s hj
  simp only [litYasbBg, List.length_cons, List.length_nil] at hj
  interval_cases j <;>
    simp [m1, litAccent, litYasbBg, mLit]

theorem nmp_m2_lit1 : NoMatchPre m2 litAccent := by
  intro j s hj
  simp only [litAccent, List.length_cons, List.length_nil] at hj
  interval_cases j <;>
    simp [m2, litAccentRgb, litAccent, mLit]

theorem nmp_m2_lit3 : NoMatchPre m2 litYasbBg := by
  intro j s hj
  simp only [litYasbBg, List.length_cons, List.length_nil] at hj
  interval_cases j <;>
    simp [m2, litAccentRgb, litYasbBg, mLit]

theorem nmp_m3_lit1 : NoMatchPre m3 litAccent := by
  intro j s hj
  simp only [litAccent, List.length_cons, List.length_nil] at hj
  interval_cases j <;>
    simp [m3, litYasbBg, litAccent, mLit]

theorem nmp_m3_lit2 : NoMatchPre m3 litAccentRgb := by
  intro j s hj
  simp only [litAccentRgb, List.length_cons, List.length_nil] at hj
  interval_cases j <;>
    simp [m3, litYasbBg, litAccentRgb, mLit]

theorem ws_ne_dash (c : Char) (h : isWS c = true) : c ≠ '-' := by
  intro heq
  rw [heq] at h
  revert h
  decide

theorem cls_ne_dash (c : Char) (h : isClsB c = true) : c ≠ '-' := by
  intro heq
  rw [heq] at h
  revert h
  decide

theorem hexdig_ne_dash (c : Char) (h : isHexDigitB c = true) : c ≠ '-' := by
  intro heq
  rw [heq] at h
  revert h
  decide

theorem dropWhile_all_cons (p : Char → Bool) :
    ∀ (l : List Char) (x : Char) (t : List Char),
      (∀ c ∈ l, p c = true) → p x = false →
      (l ++ x :: t).dropWhile p = x :: t := by
  intro l
  induction l with
  | nil =>
    intro x t _ hx
    simp [List.dropWhile_cons, hx]
  | cons c l ih =>
    intro x t hl hx
    simp only [List.cons_append, List.dropWhile_cons, hl c (by simp)]
    exact ih x t (fun d hd => hl d (by simp [hd])) hx

theorem m1_site (ws hex : List Char) (s : List Char)
    (hws : ∀ c ∈ ws, isWS c = true) (hlen : hex.length = 6)
    (hdig : ∀ c ∈ hex, isHexDigitB c = true) :
    m1 ((Block.site1 ws hex).text ++ s) = some s := by
  have hshape : (Block.site1 ws hex).text ++ s
      = litAccent ++ (ws ++ '#' :: (hex ++ (';' :: s))) := by
    simp [Block.text]
  rw [hshape]
  unfold m1
  rw [mLit_append, opt_bind_some]
  rw [dropWhile_all_cons isWS ws '#' (hex ++ (';' :: s)) hws (by decide)]
  have hhash : mLit ['#'] ('#' :: (hex ++ (';' :: s)))
      = some (hex ++ (';' :: s)) := by
    unfold mLit
    rw [if_pos rfl]
    rfl
  rw [hhash, opt_bind_some, mHex6_append hex (';' :: s) hlen hdig,
    opt_bind_some]
  unfold mLit
  rw [if_pos rfl]
  rfl

theorem m2_site (body : List Char) (s : List Char) (hne : body ≠ [])
    (hcls : ∀ c ∈ body, isClsB c = true) :
    m2 ((Block.site2 body).text ++ s) = some s := by
  obtain ⟨b0, bt, rfl⟩ : ∃ b0 bt, body = b0 :: bt := by
    cases body with
    | nil => exact absurd rfl hne
    | cons b0 bt => exact ⟨b0, bt, rfl⟩
  have hshape : (Block.site2 (b0 :: bt)).text ++ s
      = litAccentRgb ++ (b0 :: (bt ++ (';' :: s))) := by
    simp [Block.text]
  rw [hshape]
  unfold m2
  rw [mLit_append, opt_bind_some]
  have hrun : mRun1 isClsB (b0 :: (bt ++ (';' :: s))) = some (';' :: s) := by
    unfold mRun1
    dsimp only
    rw [if_pos (hcls b0 (by simp))]
    rw [dropWhile_all_cons isClsB bt ';' s
      (fun d hd => hcls d (by simp [hd])) (by decide)]
  rw [hrun, opt_bind_some]
  unfold mLit
  rw [if_pos rfl]
  rfl

theorem m3_site (ws body : List Char) (s : List Char)
    (hws : ∀ c ∈ ws, isWS c = true) (hne : body ≠ [])
    (hbody : ∀ c ∈ body, ¬ c = ';' ∧ ¬ c = '-') :
    m3 ((Block.site3 ws body).text ++ s) = some s := by
  obtain ⟨b0, bt, rfl⟩ : ∃ b0 bt, body = b0 :: bt := by
    cases body with
    | nil => exact absurd rfl hne
    | cons b0 bt => exact ⟨b0, bt, rfl⟩
  have hshape : (Block.site3 ws (b0 :: bt)).text ++ s
      = litYasbBg ++ (ws ++ ('r' :: ("gba(".toList ++ (b0 :: (bt ++ (';' :: s)))))) := by
    simp [Block.text, litRgba]
  rw [hshape]
  unfold m3
  rw [mLit_append, opt_bind_some]
  rw [dropWhile_all_cons isWS ws 'r' _ hws (by decide)]
  have hrgba : mLit litRgba ('r' :: ("gba(".toList ++ (b0 :: (bt ++ (';' :: s)))))
      = some (b0 :: (bt ++ (';' :: s))) := by
    have : ('r' :: ("gba(".toList ++ (b0 :: (bt ++ (';' :: s)))))
        = litRgba ++ (b0 :: (bt ++ (';' :: s))) := by
      simp [litRgba]
    rw [this, mLit_append]
  rw [hrgba, opt_bind_some]
  have hrun : mRun1 (fun c => !decide (c = ';')) (b0 :: (bt ++ (';' :: s)))
      = some (';' :: s) := by
    unfold mRun1
    dsimp only
    rw [if_pos (by simp [(hbody b0 (by simp)).1])]
    rw [dropWhile_all_cons _ bt ';' s
      (fun d hd => by simp [(hbody d (by simp [hd])).1]) (by decide)]
  rw [hrun, opt_bind_some]
  unfold mLit
  rw [if_pos rfl]
  rfl

theorem litRgba_nodash : ∀ c ∈ litRgba, c ≠ '-' := by decide

theorem plain_nodash (p : List Char)
    (hb : (Block.plain p).okB = true) : ∀ c ∈ p, c ≠ '-' := by
  simp only [Block.okB, List.all_eq_true, Bool.not_eq_true',
    decide_eq_false_iff_not] at hb
  exact hb

theorem site1_tail_nodash (ws hex : List Char)
    (hws : ∀ c ∈ ws, isWS c = true) (hdig : ∀ c ∈ hex, isHexDigitB c = true) :
    ∀ c ∈ ws ++ '#' :: (hex ++ [';']), c ≠ '-' := by
  intro c hc
  rcases List.mem_append.mp hc with h | h
  · exact ws_ne_dash c (hws c h)
  · rcases List.mem_cons.mp h with rfl | h2
    · decide
    · rcases List.mem_append.mp h2 with h3 | h3
      · exact hexdig_ne_dash c (hdig c h3)
      · simp at h3
        subst h3
        decide

theorem site2_tail_nodash (body : List Char)
    (hcls : ∀ c ∈ body, isClsB c = true) : ∀ c ∈ body ++ [';'], c ≠ '-' := by
  intro c hc
  rcases List.mem_append.mp hc with h | h
  · exact cls_ne_dash c (hcls c h)
  · simp at h
    subst h
    decide

theorem site3_tail_nodash (ws body : List Char)
    (hws : ∀ c ∈ ws, isWS c = true)
    (hbody : ∀ c ∈ body, ¬ c = ';' ∧ ¬ c = '-') :
    ∀ c ∈ ws ++ (litRgba ++ (body ++ [';'])), c ≠ '-' := by
  intro c hc
  rcases List.mem_append.mp hc with h | h
  · exact ws_ne_dash c (hws c h)
  · rcases List.mem_append.mp h with h2 | h2
    · exact litRgba_nodash c h2
    · rcases List.mem_append.mp h2 with h3 | h3
      · exact (hbody c h3).2
      · simp at h3
        subst h3
        decide

theorem site1_ok_parts (ws hex : List Char)
    (hb : (Block.site1 ws hex).okB = true) :
    (∀ c ∈ ws, isWS c = true) ∧ hex.length = 6
      ∧ ∀ c ∈ hex, isHexDigitB c = true := by
  simp only [Block.okB, Bool.and_eq_true, decide_eq_true_eq,
    List.all_eq_true] at hb
  exact ⟨hb.1.1, hb.1.2, hb.2⟩

theorem site2_ok_parts (body : List Char)
    (hb : (Block.site2 body).okB = true) :
    body ≠ [] ∧ ∀ c ∈ body, isClsB c = true := by
  simp only [Block.okB, Bool.and_eq_true, Bool.not_eq_true',
    decide_eq_false_iff_not, List.all_eq_true] at hb
  exact hb

theorem site3_ok_parts (ws body : List Char)
    (hb : (Block.site3 ws body).okB = true) :
    (∀ c ∈ ws, isWS c = true) ∧ body ≠ []
      ∧ ∀ c ∈ body, ¬ c = ';' ∧ ¬ c = '-' := by
  simp only [Block.okB, Bool.and_eq_true, Bool.not_eq_true',
    decide_eq_false_iff_not, List.all_eq_true] at hb
  refine ⟨hb.1.1, hb.1.2, ?_⟩
  intro c hc
  have := hb.2 c hc
  simpa using this

theorem site1_text_eq (ws hex : List Char) :
    (Block.site1 ws hex).text = litAccent ++ (ws ++ '#' :: (hex ++ [';'])) := by
  simp [Block.text]

theorem site2_text_eq (body : List Char) :
    (Block.site2 body).text = litAccentRgb ++ (body ++ [';']) := by
  simp [Block.text]

theorem site3_text_eq (ws body : List Char) :
    (Block.site3 ws body).text
      = litYasbBg ++ (ws ++ (litRgba ++ (body ++ [';']))) := by
  simp [Block.text]

theorem nmp_m1_block (b : Block) (hb : b.okB = true) (h1 : b.isS1 = false) :
    NoMatchPre m1 b.text := by
  cases b with
  | plain p => exact nmp_nodash m1 m1_head_ne p (plain_nodash p hb)
  | site1 ws hex => simp [Block.isS1] at h1
  | site2 body =>
    obtain ⟨_, hcls⟩ := site2_ok_parts body hb
    rw [site2_text_eq]
    exact nmp_append m1 _ _ nmp_m1_lit2
      (nmp_nodash m1 m1_head_ne _ (site2_tail_nodash body hcls))
  | site3 ws body =>
    obtain ⟨hws, _, hbody⟩ := site3_ok_parts ws body hb
    rw [site3_text_eq]
    exact nmp_append m1 _ _ nmp_m1_lit3
      (nmp_nodash m1 m1_head_ne _ (site3_tail_nodash ws body hws hbody))

theorem nmp_m2_block (b : Block) (hb : b.okB = true) (h2 : b.isS2 = false) :
    NoMatchPre m2 b.text := by
  cases b with
  | plain p => exact nmp_nodash m2 m2_head_ne p (plain_nodash p hb)
  | site2 body => simp [Block.isS2] at h2
  | site1 ws hex =>
    obtain ⟨hws, _, hdig⟩ := site1_ok_parts ws hex hb
    rw [site1_text_eq]
    exact nmp_append m2 _ _ nmp_m2_lit1
      (nmp_nodash m2 m2_head_ne _ (site1_tail_nodash ws hex hws hdig))
  | site3 ws body =>
    obtain ⟨hws, _, hbody⟩ := site3_ok_parts ws body hb
    rw [site3_text_eq]
    exact nmp_append m2 _ _ nmp_m2_lit3
      (nmp_nodash m2 m2_head_ne _ (site3_tail_nodash ws body hws hbody))

theorem nmp_m3_block (b : Block) (hb : b.okB = true) (h3 : b.isS3 = false) :
    NoMatchPre m3 b.text := by
  cases b with
  | plain p => exact nmp_nodash m3 m3_head_ne p (plain_nodash p hb)
  | site3 ws body => simp [Block.isS3] at h3
  | site1 ws hex =>
    obtain ⟨hws, _, hdig⟩ := site1_ok_parts ws hex hb
    rw [site1_text_eq]
    exact nmp_append m3 _ _ nmp_m3_lit1
      (nmp_nodash m3 m3_head_ne _ (site1_tail_nodash ws hex hws hdig))
  | site2 body =>
    obtain ⟨_, hcls⟩ := site2_ok_parts body hb
    rw [site2_text_eq]
    exact nmp_append m3 _ _ nmp_m3_lit2
      (nmp_nodash m3 m3_head_ne _ (site2_tail_nodash body hcls))

theorem natStrAux_digit : ∀ (f n : ℕ) (c : Char), c ∈ natStrAux f n →
    ∃ k, k < 10 ∧ c = digitChar k := by
  intro f
  induction f with
  | zero => intro n c hc; simp [natStrAux] at hc
  | succ f ih =>
    intro n c hc
    unfold natStrAux at hc
    by_cases hn : n < 10
    · rw [if_pos hn] at hc
      simp at hc
      exact ⟨n, hn, hc⟩
    · rw [if_neg hn] at hc
      rcases List.mem_append.mp hc with h | h
      · exact ih _ c h
      · simp at h
        exact ⟨n % 10, Nat.mod_lt _ (by omega), h⟩

theorem natStr_props (n : ℕ) :
    ∀ c ∈ natStr n, isClsB c = true ∧ ¬ c = ';' ∧ ¬ c = '-' ∧ ¬ c = sq := by
  intro c hc
  obtain ⟨k, hk, rfl⟩ := natStrAux_digit (n + 1) n c hc
  interval_cases k <;> exact ⟨by decide, by decide, by decide, by decide⟩

theorem hexdig_ne_hash (c : Char) (h : isHexDigitB c = true) : ¬ c = '#' := by
  intro heq
  rw [heq] at h
  revert h
  decide

theorem hex_char_val (c : Char) (h : isHexDigitB c = true) :
    ∃ v, hexVal c = some v := by
  unfold isHexDigitB at h
  simp only [Bool.or_eq_true, decide_eq_true_eq] at h
  unfold hexVal
  rcases h with (h | h) | h
  · rw [if_pos h]
    exact ⟨_, rfl⟩
  · have hno : ¬ ('0' ≤ c ∧ c ≤ '9') := by
      intro hc
      have h1 : 97 ≤ c.toNat := h.1
      have h2 : c.toNat ≤ 57 := hc.2
      omega
    rw [if_neg hno, if_pos h]
    exact ⟨_, rfl⟩
  · have h1 : 65 ≤ c.toNat := h.1
    have h2 : c.toNat ≤ 70 := h.2
    have hno : ¬ ('0' ≤ c ∧ c ≤ '9') := by
      intro hc
      have : c.toNat ≤ 57 := hc.2
      omega
    have hno2 : ¬ ('a' ≤ c ∧ c ≤ 'f') := by
      intro hc
      have : 97 ≤ c.toNat := hc.1
      omega
    rw [if_neg hno, if_neg hno2, if_pos h]
    exact ⟨_, rfl⟩

theorem valid_hex_parses (a : String) (ha : isValidHexColor a = true) :
    ∃ rgb, hex_to_rgb a = .ok rgb := by
  unfold isValidHexColor at ha
  cases hl : a.toList with
  | nil => rw [hl] at ha; simp at ha
  | cons c rest =>
    rw [hl] at ha
    simp only [Bool.and_eq_true, decide_eq_true_eq, List.all_eq_true] at ha
    obtain ⟨⟨hc, hlen⟩, hall⟩ := ha
    subst hc
    obtain ⟨c1, c2, c3, c4, c5, c6, rfl⟩ := length_six rest hlen
    obtain ⟨v1, hv1⟩ := hex_char_val c1 (hall c1 (by simp))
    obtain ⟨v2, hv2⟩ := hex_char_val c2 (hall c2 (by simp))
    obtain ⟨v3, hv3⟩ := hex_char_val c3 (hall c3 (by simp))
    obtain ⟨v4, hv4⟩ := hex_char_val c4 (hall c4 (by simp))
    obtain ⟨v5, hv5⟩ := hex_char_val c5 (hall c5 (by simp))
    obtain ⟨v6, hv6⟩ := hex_char_val c6 (hall c6 (by simp))
    refine ⟨(16 * v1 + v2, 16 * v3 + v4, 16 * v5 + v6), ?_⟩
    unfold hex_to_rgb
    rw [hl]
    have hdrop : List.dropWhile (fun c => decide (c = '#'))
        ['#', c1, c2, c3, c4, c5, c6] = [c1, c2, c3, c4, c5, c6] := by
      rw [List.dropWhile_cons_of_pos (by decide)]
      rw [List.dropWhile_cons_of_neg]
      simp only [decide_eq_true_eq]
      exact hexdig_ne_hash c1 (hall c1 (by simp))
    rw [hdrop]
    show (do
      let r ← hexPair c1 c2
      let g ← hexPair c3 c4
      let b ← hexPair c5 c6
      Except.ok (r, g, b) : Except Err (ℕ × ℕ × ℕ))
      = Except.ok (16 * v1 + v2, 16 * v3 + v4, 16 * v5 + v6)
    have hp1 : hexPair c1 c2 = .ok (16 * v1 + v2) := by
      unfold hexPair
      rw [hv1, hv2]
    have hp2 : hexPair c3 c4 = .ok (16 * v3 + v4) := by
      unfold hexPair
      rw [hv3, hv4]
    have hp3 : hexPair c5 c6 = .ok (16 * v5 + v6) := by
      unfold hexPair
      rw [hv5, hv6]
    rw [hp1, except_bind_ok, hp2, except_bind_ok, hp3, except_bind_ok]

theorem repl1_block (a : String) (ha : isValidHexColor a = true) :
    ∃ hex, repl1 a = (Block.site1 [' '] hex).text
      ∧ (Block.site1 [' '] hex).okB = true := by
  unfold isValidHexColor at ha
  cases hl : a.toList with
  | nil => rw [hl] at ha; simp at ha
  | cons c rest =>
    rw [hl] at ha
    simp only [Bool.and_eq_true, decide_eq_true_eq, List.all_eq_true] at ha
    obtain ⟨⟨hc, hlen⟩, hall⟩ := ha
    subst hc
    refine ⟨rest, ?_, ?_⟩
    · unfold repl1
      rw [hl]
      simp [Block.text]
    · simp only [Block.okB, Bool.and_eq_true, decide_eq_true_eq,
        List.all_eq_true]
      exact ⟨⟨by decide, hlen⟩, hall⟩

theorem all_mem_append {P : Char → Prop} {a b : List Char}
    (ha : ∀ c ∈ a, P c) (hb : ∀ c ∈ b, P c) : ∀ c ∈ a ++ b, P c := by
  intro c hc
  rcases List.mem_append.mp hc with h | h
  · exact ha c h
  · exact hb c h

theorem natStr_ne_nil (n : ℕ) : natStr n ≠ [] := by
  unfold natStr natStrAux
  by_cases hn : n < 10
  · rw [if_pos hn]
    simp
  · rw [if_neg hn]
    simp

theorem natStr_cls (n : ℕ) : ∀ c ∈ natStr n, isClsB c = true :=
  fun c hc => (natStr_props n c hc).1

theorem natStr_body3 (n : ℕ) : ∀ c ∈ natStr n, ¬ c = ';' ∧ ¬ c = '-' :=
  fun c hc => ⟨(natStr_props n c hc).2.1, (natStr_props n c hc).2.2.1⟩

theorem repl2_block (rgb : ℕ × ℕ × ℕ) :
    ∃ body, repl2 rgb = (Block.site2 body).text
      ∧ (Block.site2 body).okB = true := by
  refine ⟨' ' :: (natStr rgb.1 ++ ([',', ' '] ++ (natStr rgb.2.1
    ++ ([',', ' '] ++ natStr rgb.2.2)))), ?_, ?_⟩
  · unfold repl2
    simp [Block.text]
  · simp only [Block.okB, Bool.and_eq_true, Bool.not_eq_true',
      decide_eq_false_iff_not, List.all_eq_true]
    refine ⟨by simp, ?_⟩
    intro c hc
    rcases List.mem_cons.mp hc with rfl | hc2
    · decide
    · exact (all_mem_append (natStr_cls rgb.1)
        (all_mem_append (by decide)
          (all_mem_append (natStr_cls rgb.2.1)
            (all_mem_append (by decide) (natStr_cls rgb.2.2))))) c hc2

theorem repl3_block (rgb : ℕ × ℕ × ℕ) :
    ∃ body, repl3 rgb = (Block.site3 [' '] body).text
      ∧ (Block.site3 [' '] body).okB = true := by
  refine ⟨natStr rgb.1 ++ ([',', ' '] ++ (natStr rgb.2.1 ++ ([',', ' ']
    ++ (natStr rgb.2.2 ++ [',', ' ', '0', '.', '7', '2', ')'])))), ?_, ?_⟩
  · unfold repl3
    simp [Block.text]
  · simp only [Block.okB, Bool.and_eq_true, Bool.not_eq_true',
      decide_eq_false_iff_not, List.all_eq_true]
    refine ⟨⟨by decide, ?_⟩, ?_⟩
    · intro hnil
      exact natStr_ne_nil rgb.1 (List.append_eq_nil.mp hnil).1
    · have hgoal : ∀ c ∈ natStr rgb.1 ++ ([',', ' '] ++ (natStr rgb.2.1
          ++ ([',', ' '] ++ (natStr rgb.2.2
            ++ [',', ' ', '0', '.', '7', '2', ')'])))),
          ¬ c = ';' ∧ ¬ c = '-' := by
        refine all_mem_append (natStr_body3 rgb.1) ?_
        refine all_mem_append (by decide) ?_
        refine all_mem_append (natStr_body3 rgb.2.1) ?_
        refine all_mem_append (by decide) ?_
        exact all_mem_append (natStr_body3 rgb.2.2) (by decide)
      intro c hc
      have := hgoal c hc
      simp [this.1, this.2]

theorem ext_m1 (b : Block) (hb : b.okB = true) (hs : b.isS1 = true) :
    ∀ s, m1 (b.text ++ s) = some s := by
  cases b with
  | site1 ws hex =>
    obtain ⟨hws, hlen, hdig⟩ := site1_ok_parts ws hex hb
    exact fun s => m1_site ws hex s hws hlen hdig
  | plain p => simp [Block.isS1] at hs
  | site2 body => simp [Block.isS1] at hs
  | site3 ws body => simp [Block.isS1] at hs

theorem ext_m2 (b : Block) (hb : b.okB = true) (hs : b.isS2 = true) :
    ∀ s, m2 (b.text ++ s) = some s := by
  cases b with
  | site2 body =>
    obtain ⟨hne, hcls⟩ := site2_ok_parts body hb
    exact fun s => m2_site body s hne hcls
  | plain p => simp [Block.isS2] at hs
  | site1 ws hex => simp [Block.isS2] at hs
  | site3 ws body => simp [Block.isS2] at hs

theorem ext_m3 (b : Block) (hb : b.okB = true) (hs : b.isS3 = true) :
    ∀ s, m3 (b.text ++ s) = some s := by
  cases b with
  | site3 ws body =>
    obtain ⟨hws, hne, hbody⟩ := site3_ok_parts ws body hb
    exact fun s => m3_site ws body s hws hne hbody
  | plain p => simp [Block.isS3] at hs
  | site1 ws hex => simp [Block.isS3] at hs
  | site2 body => simp [Block.isS3] at hs

theorem countP_one_decomp {α : Type} (p : α → Bool) :
    ∀ (L : List α), L.countP p = 1 →
      ∃ P b Q, L = P ++ b :: Q ∧ p b = true
        ∧ P.countP p = 0 ∧ Q.countP p = 0 := by
  intro L
  induction L with
  | nil => intro h; simp at h
  | cons a L' ih =>
    intro h
    rw [List.countP_cons] at h
    cases hpa : p a with
    | true =>
      rw [hpa] at h
      rw [if_pos rfl] at h
      have hz : L'.countP p = 0 := by omega
      exact ⟨[], a, L', rfl, hpa, rfl, hz⟩
    | false =>
      rw [hpa] at h
      simp at h
      obtain ⟨P, b, Q, hL, hb, hP, hQ⟩ := ih (by omega)
      refine ⟨a :: P, b, Q, by rw [hL, List.cons_append], hb, ?_, hQ⟩
      rw [List.countP_cons, hpa, hP]
      simp

theorem flattenB_cons (b : Block) (L : List Block) :
    flattenB (b :: L) = b.text ++ flattenB L := by
  simp [flattenB]

theorem flattenB_decomp (P : List Block) (b : Block) (Q : List Block) :
    flattenB (P ++ b :: Q) = flattenB P ++ (b.text ++ flattenB Q) := by
  simp [flattenB]

theorem nmp_flatten (m : List Char → Option (List Char)) :
    ∀ (L : List Block), (∀ b ∈ L, NoMatchPre m b.text) →
      NoMatchPre m (flattenB L) := by
  intro L
  induction L with
  | nil =>
    intro _ j s hj
    simp [flattenB] at hj
  | cons b L' ih =>
    intro h
    rw [flattenB_cons]
    exact nmp_append m _ _ (h b (by simp)) (ih (fun x hx => h x (by simp [hx])))

theorem subFirst_site_step (m : List Char → Option (List Char))
    (r : List Char) (isS : Block → Bool)
    (hA : ∀ b, Block.okB b = true → isS b = true → ∀ s, m (b.text ++ s) = some s)
    (hN : ∀ b, Block.okB b = true → isS b = false → NoMatchPre m b.text)
    (L : List Block) (hok : ∀ b ∈ L, Block.okB b = true)
    (h1 : L.countP isS = 1) (b' : Block) (hr : r = b'.text) :
    ∃ P b Q, L = P ++ b :: Q ∧ isS b = true
      ∧ P.countP isS = 0 ∧ Q.countP isS = 0
      ∧ subFirst m r (flattenB L) = some (flattenB (P ++ b' :: Q)) := by
  obtain ⟨P, b, Q, hL, hsb, hP0, hQ0⟩ := countP_one_decomp isS L h1
  refine ⟨P, b, Q, hL, hsb, hP0, hQ0, ?_⟩
  subst hL
  rw [flattenB_decomp, flattenB_decomp]
  have hokb : Block.okB b = true := hok b (by simp)
  have hhit : m (b.text ++ flattenB Q) = some (flattenB Q) := hA b hokb hsb _
  have hstep : subFirst m r (b.text ++ flattenB Q) = some (r ++ flattenB Q) :=
    subFirst_hit m r _ _ hhit
  have hnmpP : NoMatchPre m (flattenB P) := by
    apply nmp_flatten
    intro x hx
    apply hN x (hok x (by simp [hx]))
    have := List.countP_eq_zero.mp hP0 x hx
    simpa using this
  have hres := subFirst_skip m r (flattenB P) _ _ hnmpP hstep
  rw [hres, hr]

theorem mem_replace {α : Type} (c b b' : α) (P Q : List α)
    (h : c ∈ P ++ b :: Q) (hne : c ≠ b) : c ∈ P ++ b' :: Q := by
  simp only [List.mem_append, List.mem_cons] at h ⊢
  rcases h with h | h | h
  · exact Or.inl h
  · exact absurd h hne
  · exact Or.inr (Or.inr h)

theorem unique_site (isS : Block → Bool) (c b : Block) (P Q : List Block)
    (hc : isS c = true) (hmem : c ∈ P ++ b :: Q)
    (hP : P.countP isS = 0) (hQ : Q.countP isS = 0) : c = b := by
  simp only [List.mem_append, List.mem_cons] at hmem
  rcases hmem with h | h | h
  · have := List.countP_eq_zero.mp hP c h
    simp [hc] at this
  · exact h
  · have := List.countP_eq_zero.mp hQ c h
    simp [hc] at this

theorem ok_replace (P Q : List Block) (b b' : Block)
    (hok : ∀ x ∈ P ++ b :: Q, Block.okB x = true) (hb' : Block.okB b' = true) :
    ∀ x ∈ P ++ b' :: Q, Block.okB x = true := by
  intro x hx
  simp only [List.mem_append, List.mem_cons] at hx
  rcases hx with h | h | h
  · exact hok x (by simp [h])
  · subst h; exact hb'
  · exact hok x (by simp [h])

theorem countP_replace (p : Block → Bool) (P Q : List Block) (b b' : Block)
    (hb : p b' = p b) :
    (P ++ b' :: Q).countP p = (P ++ b :: Q).countP p := by
  simp [List.countP_append, List.countP_cons, hb]

theorem countP_mid_one (isS : Block → Bool) (P Q : List Block) (b : Block)
    (hb : isS b = true) (hP : P.countP isS = 0) (hQ : Q.countP isS = 0) :
    (P ++ b :: Q).countP isS = 1 := by
  simp [List.countP_append, List.countP_cons, hb, hP, hQ]

theorem isS1_kinds (b : Block) (h : b.isS1 = true) :
    b.isS2 = false ∧ b.isS3 = false := by
  cases b <;> simp [Block.isS1, Block.isS2, Block.isS3] at h ⊢

theorem isS2_kinds (b : Block) (h : b.isS2 = true) :
    b.isS1 = false ∧ b.isS3 = false := by
  cases b <;> simp [Block.isS1, Block.isS2, Block.isS3] at h ⊢

theorem isS3_kinds (b : Block) (h : b.isS3 = true) :
    b.isS1 = false ∧ b.isS2 = false := by
  cases b <;> simp [Block.isS1, Block.isS2, Block.isS3] at h ⊢

/-- Claim C8 (counterexample): the stylesheet substitution is not
idempotent on every text on which it succeeds.  When one pattern's match
site overlaps another pattern's (here the `rgba(` body of the
`--yasb-background` pattern swallows the sole `--accent:` declaration),
the first application consumes the `--accent:` site, and the second
application fails with `PaletteError` instead of reproducing the output. -/
theorem c8_not_idempotent :
    isValidHexColor "#112233" = true
    ∧ update_css_pure "#112233" (0, 0, 0)
        ("--yasb-background: rgba(--accent: #aabbcc;--accent-rgb: 1;x);").toList
      = .ok (("--yasb-background: rgba(0, 0, 0, 0.72);--accent-rgb: 17, 34, 51;x);").toList)
    ∧ update_css_pure "#112233" (0, 0, 0)
        ("--yasb-background: rgba(0, 0, 0, 0.72);--accent-rgb: 17, 34, 51;x);").toList
      = .error (.paletteError "Failed to apply CSS replacement for pattern: accent") := by
  refine ⟨by decide, by decide, by decide⟩

/-- Claim C8 (amended): the stylesheet substitution is idempotent on
every stylesheet whose three pattern sites are disjoint full matches —
formally, any text decomposing into `-`-free inert fragments interleaved
with exactly one full match of each pattern (the `rgba(` body also
`-`-free, so no site swallows another pattern's head).  For any such
text and any `#`+6-hex-digit accent, the first application succeeds and
a second application with the same accent and background succeeds and
returns its input byte-identically. -/
theorem c8_idempotent_disjoint_sites (a : String) (bg : ℕ × ℕ × ℕ)
    (L : List Block) (ha : isValidHexColor a = true)
    (hok : ∀ b ∈ L, Block.okB b = true)
    (h1 : L.countP Block.isS1 = 1) (h2 : L.countP Block.isS2 = 1)
    (h3 : L.countP Block.isS3 = 1) :
    ∃ t1, update_css_pure a bg (flattenB L) = .ok t1
      ∧ update_css_pure a bg t1 = .ok t1 := by
  obtain ⟨rgbA, hrgbA⟩ := valid_hex_parses a ha
  obtain ⟨hexa, hr1, hok1⟩ := repl1_block a ha
  obtain ⟨body2, hr2, hok2⟩ := repl2_block rgbA
  obtain ⟨body3, hr3, hok3⟩ := repl3_block bg
  obtain ⟨P1, b1, Q1, hLeq1, hs1, hP1, hQ1, hsub1⟩ :=
    subFirst_site_step m1 (repl1 a) Block.isS1 ext_m1 nmp_m1_block L hok h1
      (Block.site1 [' '] hexa) hr1
  have hb1k := isS1_kinds b1 hs1
  have hokA : ∀ x ∈ P1 ++ Block.site1 [' '] hexa :: Q1, Block.okB x = true :=
    ok_replace P1 Q1 b1 _ (by rw [← hLeq1]; exact hok) hok1
  have hA1 : (P1 ++ Block.site1 [' '] hexa :: Q1).countP Block.isS1 = 1 :=
    countP_mid_one _ _ _ _ rfl hP1 hQ1
  have hA2 : (P1 ++ Block.site1 [' '] hexa :: Q1).countP Block.isS2 = 1 := by
    rw [countP_replace Block.isS2 P1 Q1 b1 _ (by rw [hb1k.1]; rfl),
      ← hLeq1]
    exact h2
  have hA3 : (P1 ++ Block.site1 [' '] hexa :: Q1).countP Block.isS3 = 1 := by
    rw [countP_replace Block.isS3 P1 Q1 b1 _ (by rw [hb1k.2]; rfl),
      ← hLeq1]
    exact h3
  obtain ⟨P2, b2, Q2, hLeq2, hs2, hP2, hQ2, hsub2⟩ :=
    subFirst_site_step m2 (repl2 rgbA) Block.isS2 ext_m2 nmp_m2_block
      (P1 ++ Block.site1 [' '] hexa :: Q1) hokA hA2 (Block.site2 body2) hr2
  have hb2k := isS2_kinds b2 hs2
  have hokB : ∀ x ∈ P2 ++ Block.site2 body2 :: Q2, Block.okB x = true :=
    ok_replace P2 Q2 b2 _ (by rw [← hLeq2]; exact hokA) hok2
  have hB1 : (P2 ++ Block.site2 body2 :: Q2).countP Block.isS1 = 1 := by
    rw [countP_replace Block.isS1 P2 Q2 b2 _ (by rw [hb2k.1]; rfl),
      ← hLeq2]
    exact hA1
  have hB2 : (P2 ++ Block.site2 body2 :: Q2).countP Block.isS2 = 1 :=
    countP_mid_one _ _ _ _ rfl hP2 hQ2
  have hB3 : (P2 ++ Block.site2 body2 :: Q2).countP Block.isS3 = 1 := by
    rw [countP_replace Block.isS3 P2 Q2 b2 _ (by rw [hb2k.2]; rfl),
      ← hLeq2]
    exact hA3
  obtain ⟨P3, b3, Q3, hLeq3, hs3, hP3, hQ3, hsub3⟩ :=
    subFirst_site_step m3 (repl3 bg) Block.isS3 ext_m3 nmp_m3_block
      (P2 ++ Block.site2 body2 :: Q2) hokB hB3 (Block.site3 [' '] body3) hr3
  have hb3k := isS3_kinds b3 hs3
  have hokC : ∀ x ∈ P3 ++ Block.site3 [' '] body3 :: Q3, Block.okB x = true :=
    ok_replace P3 Q3 b3 _ (by rw [← hLeq3]; exact hokB) hok3
  have hC1 : (P3 ++ Block.site3 [' '] body3 :: Q3).countP Block.isS1 = 1 := by
    rw [countP_replace Block.isS1 P3 Q3 b3 _ (by rw [hb3k.1]; rfl),
      ← hLeq3]
    exact hB1
  have hC2 : (P3 ++ Block.site3 [' '] body3 :: Q3).countP Block.isS2 = 1 := by
    rw [countP_replace Block.isS2 P3 Q3 b3 _ (by rw [hb3k.2]; rfl),
      ← hLeq3]
    exact hB2
  have hC3 : (P3 ++ Block.site3 [' '] body3 :: Q3).countP Block.isS3 = 1 :=
    countP_mid_one _ _ _ _ rfl hP3 hQ3
  have hc1_in_A : Block.site1 [' '] hexa ∈ P1 ++ Block.site1 [' '] hexa :: Q1 := by
    simp
  have hc1_ne_b2 : Block.site1 [' '] hexa ≠ b2 := by
    intro he
    rw [← he] at hs2
    simp [Block.isS2] at hs2
  have hc1_in_B : Block.site1 [' '] hexa ∈ P2 ++ Block.site2 body2 :: Q2 :=
    mem_replace _ b2 _ P2 Q2 (by rw [← hLeq2]; exact hc1_in_A) hc1_ne_b2
  have hc1_ne_b3 : Block.site1 [' '] hexa ≠ b3 := by
    intro he
    rw [← he] at hs3
    simp [Block.isS3] at hs3
  have hc1_in_C : Block.site1 [' '] hexa ∈ P3 ++ Block.site3 [' '] body3 :: Q3 :=
    mem_replace _ b3 _ P3 Q3 (by rw [← hLeq3]; exact hc1_in_B) hc1_ne_b3
  have hc2_in_B : Block.site2 body2 ∈ P2 ++ Block.site2 body2 :: Q2 := by simp
  have hc2_ne_b3 : Block.site2 body2 ≠ b3 := by
    intro he
    rw [← he] at hs3
    simp [Block.isS3] at hs3
  have hc2_in_C : Block.site2 body2 ∈ P3 ++ Block.site3 [' '] body3 :: Q3 :=
    mem_replace _ b3 _ P3 Q3 (by rw [← hLeq3]; exact hc2_in_B) hc2_ne_b3
  have hc3_in_C : Block.site3 [' '] body3 ∈ P3 ++ Block.site3 [' '] body3 :: Q3 := by
    simp
  obtain ⟨P4, b4, Q4, hLeq4, hs4, hP4, hQ4, hsub4⟩ :=
    subFirst_site_step m1 (repl1 a) Block.isS1 ext_m1 nmp_m1_block
      (P3 ++ Block.site3 [' '] body3 :: Q3) hokC hC1 (Block.site1 [' '] hexa) hr1
  have hb4 : Block.site1 [' '] hexa = b4 :=
    unique_site Block.isS1 _ b4 P4 Q4 rfl (by rw [← hLeq4]; exact hc1_in_C)
      hP4 hQ4
  have hsub4' : subFirst m1 (repl1 a)
      (flattenB (P3 ++ Block.site3 [' '] body3 :: Q3))
      = some (flattenB (P3 ++ Block.site3 [' '] body3 :: Q3)) := by
    rw [hsub4, hb4, ← hLeq4]
  obtain ⟨P5, b5, Q5, hLeq5, hs5, hP5, hQ5, hsub5⟩ :=
    subFirst_site_step m2 (repl2 rgbA) Block.isS2 ext_m2 nmp_m2_block
      (P3 ++ Block.site3 [' '] body3 :: Q3) hokC hC2 (Block.site2 body2) hr2
  have hb5 : Block.site2 body2 = b5 :=
    unique_site Block.isS2 _ b5 P5 Q5 rfl (by rw [← hLeq5]; exact hc2_in_C)
      hP5 hQ5
  have hsub5' : subFirst m2 (repl2 rgbA)
      (flattenB (P3 ++ Block.site3 [' '] body3 :: Q3))
      = some (flattenB (P3 ++ Block.site3 [' '] body3 :: Q3)) := by
    rw [hsub5, hb5, ← hLeq5]
  obtain ⟨P6, b6, Q6, hLeq6, hs6, hP6, hQ6, hsub6⟩ :=
    subFirst_site_step m3 (repl3 bg) Block.isS3 ext_m3 nmp_m3_block
      (P3 ++ Block.site3 [' '] body3 :: Q3) hokC hC3 (Block.site3 [' '] body3) hr3
  have hb6 : Block.site3 [' '] body3 = b6 :=
    unique_site Block.isS3 _ b6 P6 Q6 rfl (by rw [← hLeq6]; exact hc3_in_C)
      hP6 hQ6
  have hsub6' : subFirst m3 (repl3 bg)
      (flattenB (P3 ++ Block.site3 [' '] body3 :: Q3))
      = some (flattenB (P3 ++ Block.site3 [' '] body3 :: Q3)) := by
    rw [hsub6]
    conv_lhs => rw [hb6]
    rw [← hLeq6]
  refine ⟨flattenB (P3 ++ Block.site3 [' '] body3 :: Q3), ?_, ?_⟩
  · unfold update_css_pure
    simp only [hrgbA, except_bind_ok, hsub1, hsub2, hsub3]
  · unfold update_css_pure
    simp only [hrgbA, except_bind_ok, hsub4', hsub5', hsub6']

theorem c8_idempotent_disjoint_sites_witness :
    ∃ t1, update_css_pure "#112233" (9, 9, 9)
        (flattenB [Block.plain ("A ").toList,
          Block.site1 [' '] ("aabbcc").toList,
          Block.plain (" B ").toList,
          Block.site2 (" 1, 2, 3").toList,
          Block.plain (" C ").toList,
          Block.site3 [' '] ("9, 9, 9, 0.5)").toList,
          Block.plain (" D").toList]) = .ok t1
      ∧ update_css_pure "#112233" (9, 9, 9) t1 = .ok t1 :=
  c8_idempotent_disjoint_sites "#112233" (9, 9, 9) _ (by decide) (by decide)
    (by decide) (by decide) (by decide)

end Yasb
